import Mathlib

/-!
# Verification of the Tutorbook web-app data layer

A shallow embedding, in Lean 4, of the pure data-transformation logic of the
Tutorbook tutoring-marketplace web application, together with proofs about it.

The embedding models:

* `Data.concatArr` — deduplicating, empty-string-dropping array concatenation;
* `Data.prototype.initTimes` — the 1440-entry `timeStrings` array;
* `Snackbar.view` — the snackbar timeout configuration;
* `Data.post` and the mutating REST wrappers (`Data.clockIn`, …);
* `Data.getUser` / `Data.deleteUser` / `Data.updateUser` / `Data.createUser` —
  identifier validation and dispatch;
* `Data.updateUserAvailability` — merging of fetched appointments into the
  user's availability map (`location → day → list of {open, close, booked}`);
* `ViewApptDialog.update` — the clock-in elapsed-time display counter;
* the error handlers of `Data.post` and of `Payments.initStripe`'s
  `getAccountURL` polling helper.

JavaScript strings handled character-by-character (split, indexOf, replace,
Number parsing) are modelled as `List Char`; JavaScript objects used as
string-keyed dictionaries are modelled as association lists whose update
operation mutates the first matching key in place and appends missing keys,
matching JS object insertion-order semantics.  `undefined`-or-present values
are modelled with `Option`; a JS falsy string (`''` or `undefined`) field is
modelled as `""` where the code only distinguishes truthiness.
-/

namespace Tutorbook

/-! ## Association lists with JS-object update semantics -/

/-- Look up the value stored under key `k` (first match). -/
def getKey {α : Type} : List (String × α) → String → Option α
  | [], _ => none
  | (k', v) :: rest, k => if k' = k then some v else getKey rest k

/-- Update the entry under key `k` in place (JS `obj[k] = f(obj[k])`):
the first entry with key `k` is replaced; if no entry has key `k`, a new
entry is appended at the end (JS object insertion order). -/
def updKey {α : Type} : List (String × α) → String → (Option α → α) → List (String × α)
  | [], k, f => [(k, f none)]
  | (k', v) :: rest, k, f =>
    if k' = k then (k, f (some v)) :: rest else (k', v) :: updKey rest k f

/-! ## JavaScript string primitives, modelled on `List Char` -/

/-- JS `String.prototype.split` with a one-character separator: split the
character list at every occurrence of `sep`; always returns at least one
(possibly empty) piece, like JS (`''.split(':') === ['']`). -/
def splitOnC (sep : Char) : List Char → List (List Char)
  | [] => [[]]
  | c :: rest =>
    match splitOnC sep rest with
    | [] => if c = sep then [[], []] else [[c]]
    | h :: t => if c = sep then [] :: h :: t else (c :: h) :: t

/-- The numeric value of a decimal digit character, `none` otherwise. -/
def digitVal (c : Char) : Option Nat :=
  if '0' ≤ c ∧ c ≤ '9' then some (c.toNat - '0'.toNat) else none

/-- JS `Number(s)` restricted to the strings the clock code produces:
the empty string converts to `0` (as in JS), a nonempty string of decimal
digits converts to its value, and anything else is NaN (`none`). -/
def jsNumber (l : List Char) : Option Nat :=
  l.foldl (fun acc c => acc.bind (fun n => (digitVal c).map (fun d => n * 10 + d)))
    (some 0)

/-- JS `Number(x)` where `x` may be `undefined` (e.g. an out-of-range array
index): `undefined` converts to NaN. -/
def jsNumberO (o : Option (List Char)) : Option Nat :=
  o.bind jsNumber

/-- The decimal digit character for `d < 10`. -/
def digitChar (d : Nat) : Char := Char.ofNat (d + 48)

/-- Decimal representation of `n` (fuel-based so that it reduces in the
kernel); `toDecimal n` below supplies enough fuel. -/
def toDecimalAux : Nat → Nat → List Char
  | 0, _ => []
  | fuel + 1, n =>
    if n < 10 then [digitChar n]
    else toDecimalAux fuel (n / 10) ++ [digitChar (n % 10)]

/-- JS number-to-string conversion for a nonnegative integer (as produced by
`'' + n` / template concatenation in the dialog code). -/
def toDecimal (n : Nat) : List Char := toDecimalAux (n + 1) n

/-- JS `Number.prototype.toString` / string-concatenation rendering of a
nonnegative integer, as a `String`. -/
def natStr (n : Nat) : String := String.mk (toDecimal n)

/-- Does `sub` occur at the start of the second list?  (Structured so that an
empty `sub` reduces without inspecting the other list.) -/
def listPrefixOf : List Char → List Char → Bool
  | [], _ => true
  | a :: as, l =>
    match l with
    | [] => false
    | b :: bs => a == b && listPrefixOf as bs

/-- JS `String.prototype.indexOf` helper: index of the first occurrence of
`sub` in the list, if any. -/
def findSub (sub : List Char) : List Char → Option Nat
  | [] => if listPrefixOf sub [] then some 0 else none
  | c :: t =>
    if listPrefixOf sub (c :: t) then some 0
    else (findSub sub t).map (fun i => i + 1)

/-- JS `String.prototype.indexOf`: first index of `sub` in `l`, `-1` if
absent. -/
def jsIndexOf (l sub : List Char) : Int :=
  match findSub sub l with
  | some i => (i : Int)
  | none => -1

/-- JS `String.prototype.replace` with a string pattern: replace the first
occurrence of `sub` by `repl`; if `sub` does not occur, return the string
unchanged. -/
def replaceFirst (sub repl : List Char) : List Char → List Char
  | [] => if listPrefixOf sub [] then repl else []
  | c :: t =>
    if listPrefixOf sub (c :: t) then repl ++ (c :: t).drop sub.length
    else c :: replaceFirst sub repl t

/-- JS `String.prototype.endsWith`. -/
def jsEndsWith (s suffix : String) : Bool :=
  suffix.data.isSuffixOf s.data

/-! ## `Data.concatArr`

```js
static concatArr(arrA, arrB) {
  var result = [];
  arrA.forEach((item) => {
    if (result.indexOf(item) < 0 && item !== '') {
      result.push(item);
    }
  });
  arrB.forEach((item) => {
    if (result.indexOf(item) < 0 && item !== '') {
      result.push(item);
    }
  });
  return result;
}
```
-/

/-- One `forEach` loop of `Data.concatArr`: push each item of `l` onto
`result` unless it is already present (`result.indexOf(item) < 0`) or is the
empty string. -/
def concatArrGo (result : List String) : List String → List String
  | [] => result
  | item :: rest =>
    if item ∉ result ∧ item ≠ "" then concatArrGo (result ++ [item]) rest
    else concatArrGo result rest

/-- `Data.concatArr`: run the push loop over `arrA`, then over `arrB`,
starting from an empty `result`. -/
def concatArr (arrA arrB : List String) : List String :=
  concatArrGo (concatArrGo [] arrA) arrB

/-- Keep-first deduplication: retain the first occurrence of every element,
dropping later duplicates.  (Spec-side description of the order produced by
`concatArr`; `Data.concatArr` is proved equal to it after filtering `''`.) -/
def dedupFirst : List String → List String
  | [] => []
  | a :: l => a :: dedupFirst (l.filter (fun x => x ≠ a))
termination_by l => l.length
decreasing_by
  simp only [List.length_cons]
  exact Nat.lt_succ_of_le (List.length_filter_le _ _)

/-! ## `Data.prototype.initTimes`

```js
initTimes() {
  this.timeStrings = [];
  ['AM', 'PM'].forEach((suffix) => {
    for (var min = 0; min < 60; min++) {
      if (min < 10) { var minString = '0' + min.toString(); }
      else { var minString = min.toString(); }
      this.timeStrings.push('12:' + minString + ' ' + suffix);
    }
    for (var hour = 1; hour < 12; hour++) {
      for (var min = 0; min < 60; min++) {
        if (min < 10) { var minString = '0' + min.toString(); }
        else { var minString = min.toString(); }
        this.timeStrings.push(hour + ':' + minString + ' ' + suffix);
      }
    }
  });
}
```
-/

/-- The `minString` computation: zero-pad minute values below 10. -/
def minString (min : Nat) : String :=
  if min < 10 then "0" ++ natStr min else natStr min

/-- `Data.prototype.initTimes`: for each suffix (`AM` then `PM`), first the
sixty `12:MM` strings, then for each hour `1`–`11` the sixty `H:MM` strings. -/
def initTimes : List String :=
  (["AM", "PM"]).flatMap (fun suffix =>
    ((List.range 60).map (fun min => "12:" ++ minString min ++ " " ++ suffix)) ++
    ((List.range 11).map (fun h => h + 1)).flatMap (fun hour =>
      (List.range 60).map (fun min =>
        natStr hour ++ ":" ++ minString min ++ " " ++ suffix)))

/-- Spec-side description: the 12-hour display string of minute-of-day `n`
(for `n < 1440`).  Minute `0` is `12:00 AM`; minutes `0`–`719` form the AM
block (hour `0` displayed as `12`, then hours `1`–`11`); minutes `720`–`1439`
form the PM block likewise. -/
def minuteString (n : Nat) : String :=
  let hour24 := n / 60
  let hour12 := if hour24 % 12 = 0 then 12 else hour24 % 12
  let suffix := if n < 720 then "AM" else "PM"
  natStr hour12 ++ ":" ++ minString (n % 60) ++ " " ++ suffix

/-! ## `Snackbar.view`

```js
view(message, label, action, showClose, timeout = 5000) {
  ...
  snackbar.timeoutMs = message.endsWith('...') ? -1 : timeout;
  ...
}
```
-/

/-- The `timeoutMs` that `Snackbar.view` assigns to the snackbar it shows:
`-1` (stay open) for messages ending in `'...'`, the supplied `timeout`
otherwise.  The `timeout` parameter defaults to `5000` when the caller omits
it (JS default parameter), modelled by `Option.getD`. -/
def snackbarTimeoutMs (message : String) (timeoutArg : Option Int) : Int :=
  let timeout := timeoutArg.getD 5000
  if jsEndsWith message "..." then -1 else timeout

/-! ## `Data.post` response handling

```js
static async post(action, data) {
  return axios({ method: 'post', url: window.app.functionsURL + 'data',
    params: { test: window.app.test, user: window.app.user.uid,
      action: action, token: ... }, data: data })
    .then((res) => {
      if (typeof res.data === 'string' && res.data.indexOf('ERROR') > 0)
        throw new Error(res.data.replace('[ERROR] ', ''));
      return res.data;
    })
    .catch((err) => {
      console.error('[ERROR] During ' + action + ' REST API call.', err);
      throw err;
    });
}
```
-/

/-- The `res.data` value of a REST response: either a string or some
non-string JSON value (`typeof res.data === 'string'` distinguishes them). -/
inductive JSData where
  | str (s : List Char)
  | obj (tag : String)
deriving DecidableEq

/-- The `.then` handler of `Data.post`: throw (`Except.error`) with the first
`'[ERROR] '` occurrence stripped when `res.data` is a string whose first
`'ERROR'` occurrence is at an index strictly greater than `0`; otherwise
return `res.data` unchanged. -/
def postResponseHandler (resData : JSData) : Except (List Char) JSData :=
  match resData with
  | .str s =>
    if jsIndexOf s "ERROR".data > 0 then
      .error (replaceFirst "[ERROR] ".data [] s)
    else .ok (.str s)
  | d => .ok d

/-! ## The mutating REST wrappers (`Data.clockIn` … `Data.newRequest`) -/

/-- A JSON-like value placed into a request payload. -/
inductive JSVal where
  | str (s : String)
  | obj (fields : List (String × JSVal))
  | boolean (b : Bool)
  | undef

/-- The ambient app state read by `Data.post` (`window.app` and the current
auth token). -/
structure PostEnv where
  functionsURL : String
  test : Bool
  userUid : String
  token : String
deriving DecidableEq

/-- An HTTP request issued by `Data.post`: a POST to the single `data`
endpoint carrying the query parameters `test`, `user`, `action`, `token` and
the JSON payload. -/
structure PostReq where
  method : String
  url : String
  test : Bool
  user : String
  action : String
  token : String
  payload : List (String × JSVal)

/-- `Data.post action data`: the (single) HTTP request it issues. -/
def post (env : PostEnv) (action : String) (data : List (String × JSVal)) :
    List PostReq :=
  [{ method := "post", url := env.functionsURL ++ "data", test := env.test,
     user := env.userUid, action := action, token := env.token,
     payload := data }]

/-- `Data.newRequest(request, payment)`. -/
def newRequest (env : PostEnv) (request payment : JSVal) : List PostReq :=
  post env "newRequest" [("request", request), ("payment", payment)]

/-- `Data.approveRequest(request, id)`. -/
def approveRequest (env : PostEnv) (request id : JSVal) : List PostReq :=
  post env "approveRequest" [("request", request), ("id", id)]

/-- `Data.rejectRequest(request, id)`. -/
def rejectRequest (env : PostEnv) (request id : JSVal) : List PostReq :=
  post env "rejectRequest" [("request", request), ("id", id)]

/-- `Data.cancelRequest(request, id)`. -/
def cancelRequest (env : PostEnv) (request id : JSVal) : List PostReq :=
  post env "cancelRequest" [("request", request), ("id", id)]

/-- `Data.modifyRequest(request, id)`. -/
def modifyRequest (env : PostEnv) (request id : JSVal) : List PostReq :=
  post env "modifyRequest" [("request", request), ("id", id)]

/-- `Data.modifyAppt(appt, id)`. -/
def modifyAppt (env : PostEnv) (appt id : JSVal) : List PostReq :=
  post env "modifyAppt" [("appt", appt), ("id", id)]

/-- `Data.cancelAppt(appt, id)`. -/
def cancelAppt (env : PostEnv) (appt id : JSVal) : List PostReq :=
  post env "cancelAppt" [("appt", appt), ("id", id)]

/-- `Data.clockIn(appt, id, proof)`. -/
def clockIn (env : PostEnv) (appt id proof : JSVal) : List PostReq :=
  post env "clockIn" [("appt", appt), ("id", id), ("proof", proof)]

/-- `Data.clockOut(appt, id, proof)`. -/
def clockOut (env : PostEnv) (appt id proof : JSVal) : List PostReq :=
  post env "clockOut" [("appt", appt), ("id", id), ("proof", proof)]

/-- `Data.approvePayment(approvedPayment, id)`. -/
def approvePayment (env : PostEnv) (approvedPayment id : JSVal) : List PostReq :=
  post env "approvePayment" [("approvedPayment", approvedPayment), ("id", id)]

/-- `Data.denyPayment(deniedPayment, id)`. -/
def denyPayment (env : PostEnv) (deniedPayment id : JSVal) : List PostReq :=
  post env "denyPayment" [("deniedPayment", deniedPayment), ("id", id)]

/-! ## The availability data model and `Data.updateUserAvailability` -/

/-- One availability window: `{ open: '2:45 PM', close: '3:45 PM',
booked: false }`. -/
structure Timeslot where
  «open» : String
  close : String
  booked : Bool
deriving DecidableEq, Repr

/-- Days of a location mapped to their timeslot lists (JS object →
insertion-ordered association list). -/
abbrev DaySlots := List (String × List Timeslot)

/-- The availability map: location name → day → timeslots. -/
abbrev AvailMap := List (String × DaySlots)

/-- An appointment's `time` field. -/
structure ApptTime where
  day : String
  «from» : String
  «to» : String
deriving DecidableEq, Repr

/-- The part of an appointment's `location` field the merge reads. -/
structure ApptLocation where
  name : String
deriving DecidableEq, Repr

/-- The fields of a fetched appointment document that
`Data.updateUserAvailability` reads. -/
structure Appt where
  location : ApptLocation
  time : ApptTime
deriving DecidableEq, Repr

/-- The fields of a user object read by the Data-layer user functions.
A JS falsy (`undefined` or `''`) identifier is modelled as `""`;
`availability` is `none` when the JS field is `undefined`. -/
structure User where
  uid : String := ""
  id : String := ""
  email : String := ""
  name : String := ""
  location : String := ""
  locations : List String := []
  availability : Option AvailMap := none

/-- `findIndex((t) => t.open === o && t.close === c) >= 0` on a timeslot
list. -/
def hasSlotWith (slots : List Timeslot) (o c : String) : Bool :=
  slots.any (fun t => t.«open» == o && t.close == c)

/-- Read-modify-write of `m[loc][day]` (creating `m[loc] = {}` and
`m[loc][day] = []` when missing, as the JS guards do). -/
def updSlots (m : AvailMap) (loc day : String)
    (f : List Timeslot → List Timeslot) : AvailMap :=
  updKey m loc (fun days =>
    updKey (days.getD []) day (fun slots => f (slots.getD [])))

/-- The guarded push of both passes: `findIndex(...) >= 0` skips, otherwise
`push({open: o, close: c, booked: b})`. -/
def pushSlot (o c : String) (b : Bool) (slots : List Timeslot) : List Timeslot :=
  if hasSlotWith slots o c then slots else slots ++ [⟨o, c, b⟩]

/-- The appointment pass of `Data.updateUserAvailability`: skip when a slot
with the appointment's `from`/`to` already exists at its location and day,
otherwise push `{open: from, close: to, booked: true}`. -/
def addAppt (m : AvailMap) (appt : Appt) : AvailMap :=
  updSlots m appt.location.name appt.time.day
    (pushSlot appt.time.«from» appt.time.«to» true)

/-- One prior timeslot in the availability pass: push
`{open, close, booked: false}` unless a slot with the same `open`/`close`
already exists at this location and day. -/
def addPriorTimeslot (m : AvailMap) (loc day : String) (ts : Timeslot) :
    AvailMap :=
  updSlots m loc day (pushSlot ts.«open» ts.close false)

/-- One day of the user's prior availability: ensure
`bookedAvailability[loc][day]` exists, then process its timeslots. -/
def addPriorDay (loc : String) (m : AvailMap) (dayEntry : String × List Timeslot) :
    AvailMap :=
  dayEntry.2.foldl (fun acc ts => addPriorTimeslot acc loc dayEntry.1 ts)
    (updSlots m loc dayEntry.1 id)

/-- One location of the user's prior availability: ensure
`bookedAvailability[loc]` exists, then process its days. -/
def addPriorLoc (m : AvailMap) (locEntry : String × DaySlots) : AvailMap :=
  locEntry.2.foldl (addPriorDay locEntry.1)
    (updKey m locEntry.1 (fun days => days.getD []))

/-- The `bookedAvailability` object built by `Data.updateUserAvailability`:
first every fetched appointment (booked slots), then every window of the
user's existing availability (unbooked slots). -/
def buildBookedAvailability (appts : List Appt) (prior : AvailMap) : AvailMap :=
  prior.foldl addPriorLoc (appts.foldl addAppt [])

/-- `Data.updateUserAvailability(user)` with the user's fetched appointment
documents: `none` models the early `console.warn` return for a falsy
`user.uid` (the availability is left untouched); otherwise the new value
assigned to `user.availability`. -/
def updateUserAvailability (user : User) (appts : List Appt) : Option AvailMap :=
  if user.uid = "" then none
  else some (buildBookedAvailability appts (user.availability.getD []))

/-- The timeslot list stored at `m[loc][day]` (empty when absent). -/
def slotsAt (m : AvailMap) (loc day : String) : List Timeslot :=
  ((getKey ((getKey m loc).getD []) day).getD [])

/-- An appointment matches location `loc`, day `day` and window `o`–`c`. -/
def apptMatches (a : Appt) (loc day o c : String) : Prop :=
  a.location.name = loc ∧ a.time.day = day ∧ a.time.«from» = o ∧ a.time.«to» = c

instance (a : Appt) (loc day o c : String) : Decidable (apptMatches a loc day o c) := by
  unfold apptMatches; infer_instance

/-- Two timeslots differ in their `(open, close)` window. -/
def distinctOC (t1 t2 : Timeslot) : Prop :=
  ¬(t1.«open» = t2.«open» ∧ t1.close = t2.close)

/-- Invariant: every booked slot of the map comes from a matching fetched
appointment. -/
def InvBooked (appts : List Appt) (m : AvailMap) : Prop :=
  ∀ loc day t, t ∈ slotsAt m loc day → t.booked = true →
    ∃ a ∈ appts, apptMatches a loc day t.«open» t.close

/-- Invariant: no `(open, close)` window occurs twice in any day's list. -/
def InvNodupOC (m : AvailMap) : Prop :=
  ∀ loc day, (slotsAt m loc day).Pairwise distinctOC

/-- Invariant (appointment pass): every slot of the map is booked. -/
def InvAllBooked (m : AvailMap) : Prop :=
  ∀ loc day t, t ∈ slotsAt m loc day → t.booked = true

/-- Invariant: every appointment of `appts` has a booked slot in the map at
its location, day and window. -/
def InvApptPresent (appts : List Appt) (m : AvailMap) : Prop :=
  ∀ a ∈ appts, ∃ t ∈ slotsAt m a.location.name a.time.day,
    t.«open» = a.time.«from» ∧ t.close = a.time.«to» ∧ t.booked = true

/-- An unbooked slot with `ts`'s window is stored at `m[loc][day]`. -/
def falseSlotAt (m : AvailMap) (loc day : String) (ts : Timeslot) : Prop :=
  ∃ t ∈ slotsAt m loc day,
    t.«open» = ts.«open» ∧ t.close = ts.close ∧ t.booked = false

/-- No fetched appointment matches `(loc, day, ts.open, ts.close)`. -/
def noMatch (appts : List Appt) (loc day : String) (ts : Timeslot) : Prop :=
  ¬ ∃ a ∈ appts, apptMatches a loc day ts.«open» ts.close

/-- Every stored slot of `m` is still stored in `m'` (the passes only append
slots, never remove or rewrite them). -/
def slotsMono (m m' : AvailMap) : Prop :=
  ∀ loc day t, t ∈ slotsAt m loc day → t ∈ slotsAt m' loc day

/-! ## `Data.getUser`, `Data.deleteUser`, `Data.updateUser`, `Data.createUser` -/

/-- A document-database access performed by a user function. -/
inductive DBOp where
  | readDoc (path : List String)
  | updateDoc (path : List String)
  | deleteDoc (path : List String)
  | setDoc (collection : String) (docId : String)
deriving DecidableEq, Repr

/-- JS truthiness of an optional string argument: `undefined` and `''` are
falsy. -/
def jsFalsyStr (id : Option String) : Bool :=
  match id with
  | none => true
  | some s => s == ""

/-- `Data.getUser(id)`: throw on a falsy id or an id containing `'@'`,
otherwise read `users/{id}`.  (The subsequent not-found throw depends on the
database and is outside this model; the claim concerns the validation.) -/
def getUser (id : Option String) : Except String DBOp :=
  if jsFalsyStr id then .error "Could not get user data b/c id was undefined."
  else if jsIndexOf (id.getD "").data ['@'] ≥ 0 then
    .error "Using an email as a user ID is deprecated."
  else .ok (.readDoc ["users", id.getD ""])

/-- `Data.deleteUser(id)`: throw on a falsy id or an id containing `'@'`,
otherwise delete `users/{id}`. -/
def deleteUser (id : Option String) : Except String DBOp :=
  if jsFalsyStr id then .error "Could not delete user b/c id was undefined."
  else if jsIndexOf (id.getD "").data ['@'] ≥ 0 then
    .error "Using an email as a user ID is deprecated."
  else .ok (.deleteDoc ["users", id.getD ""])

/-- The `window.app` state the user functions read. -/
structure AppEnv where
  locationNames : List String
  appLocationName : String
  appUserType : String
  appUserId : String

/-- The mutation `Data.updateUserAvailability` performs on its argument
(`user.availability = bookedAvailability`), absent when it returned early. -/
def applyUpdateUserAvailability (user : User) (appts : List Appt) : User :=
  match updateUserAvailability user appts with
  | none => user
  | some av => { user with availability := some av }

/-- `Data.updateUserLocation(user)`: set `user.location` from each key of
`user.availability` and `user.locations` via `concatArr`.
`Object.keys(undefined)` raises a `TypeError` (modelled as `Except.error`)
when the user has no availability field. -/
def updateUserLocation (env : AppEnv) (user : User) : Except String User :=
  match user.availability with
  | none => .error "TypeError: cannot convert undefined to object"
  | some av =>
    let locs := av.map Prod.fst
    let user := locs.foldl (fun u loc =>
      { u with location :=
          if env.locationNames.contains loc then loc else env.appLocationName }) user
    .ok { user with locations := concatArr locs [env.appLocationName] }

/-- `Data.updateUser(user)`: first `updateUserAvailability`, then
`updateUserLocation`, then dispatch on the identifiers — a direct
`users/{uid}` document update for a truthy `uid`, an exception otherwise.
(The `if (!user)` check of the source is unreachable for a defined user
object and has no counterpart here.) -/
def updateUser (env : AppEnv) (user : User) (appts : List Appt) :
    Except String DBOp := do
  let user1 := applyUpdateUserAvailability user appts
  let user2 ← updateUserLocation env user1
  if user2.id = "" ∧ user2.email = "" ∧ user2.uid = "" then
    .error "Could not update user b/c id was undefined."
  else if user2.uid ≠ "" then
    .ok (.updateDoc ["users", user2.uid])
  else
    .error "Using an email as a user ID is deprecated."

/-- The write or REST call `Data.createUser` dispatches to. -/
inductive CreateUserAct where
  | setUsersDoc (uid : String)
  | postCreateProxyUser
  | setUsersByEmailDoc (key : String)
deriving DecidableEq, Repr

/-- `Data.createUser(user)`: direct `users/{uid}` set for a truthy `uid`;
`createProxyUser` REST action when the app user is a Supervisor with a
different id; otherwise a `usersByEmail` set keyed by `user.id || user.email`;
an exception when no identifier is present.  (The `if (!user)` check is
unreachable for a defined user object.) -/
def createUser (env : AppEnv) (user : User) : Except String CreateUserAct :=
  if user.id = "" ∧ user.uid = "" ∧ user.email = "" then
    .error "Could not create user b/c id was undefined."
  else if user.uid ≠ "" then
    .ok (.setUsersDoc user.uid)
  else if env.appUserType = "Supervisor" ∧ env.appUserId ≠ user.id then
    .ok .postCreateProxyUser
  else
    .ok (.setUsersByEmailDoc (if user.id ≠ "" then user.id else user.email))

/-! ## Error-handler effects: `Data.post` vs `Payments.initStripe`

```js
function getAccountURL() {
  return axios({ method: 'get', url: ... + '/accountURL',
      params: { id: window.app.user.id } })
    .then((res) => { that.accountURL = res.data.url; })
    .catch((err) => {
      console.error('Error while fetching new Stripe Connect Account url:', err);
      setTimeout(getAccountURL, 5000);
    });
}
getAccountURL();
```
-/

/-- Observable effects of the REST error handlers. -/
inductive Eff where
  | httpGet (endpoint : String) (id : String)
  | storeAccountURL
  | consoleError
  | scheduleInvoke (delayMs : Nat)
  | throwErr
deriving DecidableEq, Repr

/-- The `.catch` handler of `Data.post`: log the error and rethrow; no
notification, no retry. -/
def dataPostOnError : List Eff := [.consoleError, .throwErr]

/-- The `.then` handler of `getAccountURL`: store the fetched URL. -/
def getAccountURLOnSuccess : List Eff := [.storeAccountURL]

/-- The `.catch` handler of `getAccountURL`: log the error and
`setTimeout(getAccountURL, 5000)` — schedule the same fetch again. -/
def getAccountURLOnError : List Eff := [.consoleError, .scheduleInvoke 5000]

/-- The effect trace of one user-initiated `getAccountURL()` call that fails
`failures` times before succeeding: each failure's `setTimeout` re-runs
`getAccountURL`, issuing a further GET with no new user action. -/
def getAccountURLTrace (userId : String) : Nat → List Eff
  | 0 => Eff.httpGet "accountURL" userId :: getAccountURLOnSuccess
  | n + 1 =>
    (Eff.httpGet "accountURL" userId :: getAccountURLOnError) ++
      getAccountURLTrace userId n

/-! ## `ViewApptDialog.update` (clock-in elapsed-time counter) -/

/-- Parsing of a `Hr:Min:Sec.Centisec` display value, exactly as the code
does it: `split(':')[0]`, `split(':')[1]`, `split(':')[2].split('.')[0]` and
`split('.')[1]` fed to `Number`.  With `milliFallback` (the `|| 0` used for
the Current display) a NaN centisecond value falls back to `0`; without it
(the Total display) NaN propagates (`none`). -/
def clockParts (milliFallback : Bool) (v : List Char) :
    Option (Nat × Nat × Nat × Nat) :=
  (jsNumberO ((splitOnC ':' v).get? 0)).bind fun hours =>
  (jsNumberO ((splitOnC ':' v).get? 1)).bind fun minutes =>
  (jsNumberO (((splitOnC ':' v).get? 2).map
    (fun p => (splitOnC '.' p).headD []))).bind fun seconds =>
  (if milliFallback then some ((jsNumberO ((splitOnC '.' v).get? 1)).getD 0)
   else jsNumberO ((splitOnC '.' v).get? 1)).bind fun milli =>
  some (hours, minutes, seconds, milli)

/-- The increment-and-carry of `ViewApptDialog.update`: `milli++`, then the
`=== 100` / `=== 60` / `=== 60` carry cascade. -/
def tickCarry : Nat × Nat × Nat × Nat → Nat × Nat × Nat × Nat
  | (hours, minutes, seconds, milli) =>
    let milli1 := milli + 1
    let milli2 := if milli1 = 100 then 0 else milli1
    let seconds1 := if milli1 = 100 then seconds + 1 else seconds
    let seconds2 := if seconds1 = 60 then 0 else seconds1
    let minutes1 := if seconds1 = 60 then minutes + 1 else minutes
    let minutes2 := if minutes1 = 60 then 0 else minutes1
    let hours1 := if minutes1 = 60 then hours + 1 else hours
    (hours1, minutes2, seconds2, milli2)

/-- The display string written back:
`hours + ':' + minutes + ':' + seconds + '.' + milli` (unpadded). -/
def fmtClock : Nat × Nat × Nat × Nat → List Char
  | (hours, minutes, seconds, milli) =>
    toDecimal hours ++ ':' :: toDecimal minutes ++ ':' :: toDecimal seconds ++
      '.' :: toDecimal milli

/-- One display's update: parse, increment with carries, write back. -/
def updateTimeValue (milliFallback : Bool) (v : List Char) : Option (List Char) :=
  (clockParts milliFallback v).map (fun q => fmtClock (tickCarry q))

/-- `ViewApptDialog.update`: run once per `setInterval` tick, it rewrites the
`Current` display (whose centisecond parse carries `|| 0`) and the `Total`
display (whose parse does not). -/
def viewApptDialogUpdate (current total : List Char) :
    Option (List Char × List Char) := do
  let current2 ← updateTimeValue true current
  let total2 ← updateTimeValue false total
  pure (current2, total2)

/-- Total centiseconds of a parsed `(H, M, S, CC)` display:
`((H*60 + M)*60 + S)*100 + CC`. -/
def centisOf (q : Nat × Nat × Nat × Nat) : Nat :=
  ((q.1 * 60 + q.2.1) * 60 + q.2.2.1) * 100 + q.2.2.2

/-- The claim's reading of a display as total centiseconds. -/
def displayCentis (v : List Char) : Option Nat :=
  (clockParts false v).map centisOf

/-! ## Parsing `timeStrings` entries (inverse used for `initTimes`) -/

/-- Parse a `H:MM AM`/`H:MM PM` display back to its minute of the day
(inverse of `minuteString` on well-formed strings; used to show the
`timeStrings` entries are pairwise distinct). -/
def parseTimeString (s : String) : Option Nat :=
  match splitOnC ' ' s.data with
  | [hm, sfx] =>
    match splitOnC ':' hm with
    | [hTxt, mTxt] => do
      let hv ← jsNumber hTxt
      let mv ← jsNumber mTxt
      let base ←
        if sfx = ['A', 'M'] then some 0
        else if sfx = ['P', 'M'] then some 720
        else none
      let h24 := if hv = 12 then 0 else hv
      pure (base + h24 * 60 + mv)
    | _ => none
  | _ => none

/-! # Theorems -/

theorem getKey_updKey {α : Type} (m : List (String × α)) (k k' : String)
    (f : Option α → α) :
    getKey (updKey m k f) k' =
      if k' = k then some (f (getKey m k)) else getKey m k' := by
  induction m with
  | nil =>
    by_cases h : k' = k
    · subst h; simp [updKey, getKey]
    · have h' : ¬k = k' := fun hc => h hc.symm
      simp [updKey, getKey, h, h']
  | cons p rest ih =>
    obtain ⟨k₀, v⟩ := p
    by_cases h0 : k₀ = k
    · subst h0
      by_cases h : k' = k₀
      · subst h; simp [updKey, getKey]
      · have h' : ¬k₀ = k' := fun hc => h hc.symm
        simp [updKey, getKey, h, h']
    · by_cases h1 : k₀ = k'
      · subst h1
        have h2 : ¬k₀ = k := h0
        simp [updKey, getKey, h0]
      · by_cases h2 : k' = k
        · subst h2
          simp [updKey, getKey, h0, h1, ih]
        · simp [updKey, getKey, h0, h1, h2, ih]


/-! ## C10: `Data.concatArr` -/

theorem mem_dedupFirst (l : List String) : ∀ x, x ∈ dedupFirst l ↔ x ∈ l := by
  induction l using dedupFirst.induct with
  | case1 => simp [dedupFirst]
  | case2 a t ih =>
    intro x
    rw [dedupFirst]
    simp only [List.mem_cons, ih, List.mem_filter]
    by_cases hx : x = a <;> simp [hx]

theorem nodup_dedupFirst (l : List String) : (dedupFirst l).Nodup := by
  induction l using dedupFirst.induct with
  | case1 => simp [dedupFirst]
  | case2 a t ih =>
    rw [dedupFirst, List.nodup_cons]
    refine ⟨fun ha => ?_, ih⟩
    rw [mem_dedupFirst] at ha
    simp at ha

theorem concatArrGo_eq (l : List String) : ∀ r, concatArrGo r l =
    r ++ dedupFirst (l.filter (fun x => decide (x ∉ r ∧ x ≠ ""))) := by
  induction l with
  | nil => intro r; simp [concatArrGo, dedupFirst]
  | cons item rest ih =>
    intro r
    by_cases h : item ∉ r ∧ item ≠ ""
    · rw [concatArrGo, if_pos h, ih (r ++ [item]),
        List.filter_cons_of_pos (by simpa using h), dedupFirst]
      have hfilter :
          List.filter (fun x => decide (x ≠ item))
              (List.filter (fun x => decide (x ∉ r ∧ x ≠ "")) rest) =
            List.filter (fun x => decide (x ∉ r ++ [item] ∧ x ≠ "")) rest := by
        rw [List.filter_filter]
        refine List.filter_congr ?_
        intro x _
        rw [← Bool.decide_and, decide_eq_decide]
        simp only [List.mem_append, List.mem_singleton, not_or]
        tauto
      rw [hfilter]
      simp
    · rw [concatArrGo, if_neg h, ih, List.filter_cons_of_neg (by simpa using h)]

theorem concatArrGo_append (l1 : List String) :
    ∀ l2 r, concatArrGo (concatArrGo r l1) l2 = concatArrGo r (l1 ++ l2) := by
  induction l1 with
  | nil => intro l2 r; simp [concatArrGo]
  | cons a t ih =>
    intro l2 r
    by_cases h : a ∉ r ∧ a ≠ "" <;> simp [concatArrGo, h, ih]

theorem concatArr_eq_dedupFirst (A B : List String) :
    concatArr A B = dedupFirst ((A ++ B).filter (fun x => decide (x ≠ ""))) := by
  rw [concatArr, concatArrGo_append, concatArrGo_eq]
  simp

theorem mem_concatArrGo (l : List String) :
    ∀ r x, x ∈ concatArrGo r l ↔ x ∈ r ∨ (x ∈ l ∧ x ≠ "") := by
  induction l with
  | nil => intro r x; simp [concatArrGo]
  | cons item rest ih =>
    intro r x
    by_cases h : item ∉ r ∧ item ≠ ""
    · obtain ⟨h1, h2⟩ := h
      rw [concatArrGo, if_pos ⟨h1, h2⟩, ih]
      simp only [List.mem_append, List.mem_singleton, List.mem_cons,
        List.not_mem_nil, or_false]
      constructor
      · rintro ((hr | hi) | ⟨hx, hne⟩)
        · exact Or.inl hr
        · subst hi; exact Or.inr ⟨Or.inl rfl, h2⟩
        · exact Or.inr ⟨Or.inr hx, hne⟩
      · rintro (hr | ⟨(hi | hx), hne⟩)
        · exact Or.inl (Or.inl hr)
        · subst hi; exact Or.inl (Or.inr rfl)
        · exact Or.inr ⟨hx, hne⟩
    · rw [concatArrGo, if_neg h, ih]
      push_neg at h
      simp only [List.mem_cons]
      constructor
      · rintro (hr | ⟨hx, hne⟩)
        · exact Or.inl hr
        · exact Or.inr ⟨Or.inr hx, hne⟩
      · rintro (hr | ⟨(hi | hx), hne⟩)
        · exact Or.inl hr
        · subst hi
          exact Or.inl (by_contra fun hc => hne (h hc))
        · exact Or.inr ⟨hx, hne⟩

theorem concatArrGo_no_new (l : List String) :
    ∀ r, (∀ x ∈ l, x ∈ r ∨ x = "") → concatArrGo r l = r := by
  induction l with
  | nil => intro r _; rfl
  | cons item rest ih =>
    intro r hl
    have hitem := hl item (List.mem_cons_self _ _)
    have : ¬(item ∉ r ∧ item ≠ "") := by tauto
    rw [concatArrGo, if_neg this]
    exact ih r (fun x hx => hl x (List.mem_cons_of_mem _ hx))

/-- C10.  `Data.concatArr(A, B)` returns the elements of `A ++ B` other than
the empty string, with later duplicates dropped (keep-first deduplication, so
the order is by first occurrence with `A`'s elements considered before `B`'s);
consequently the result has no duplicates, no empty strings, its members are
exactly the non-empty members of `A` and `B`, and `concatArr(A, A) =
concatArr(A, [])`. -/
theorem concatArr_spec (A B : List String) :
    concatArr A B = dedupFirst ((A ++ B).filter (fun x => decide (x ≠ ""))) ∧
    (concatArr A B).Nodup ∧
    ("" ∉ concatArr A B) ∧
    (∀ x, x ∈ concatArr A B ↔ ((x ∈ A ∨ x ∈ B) ∧ x ≠ "")) ∧
    concatArr A A = concatArr A [] := by
  have hmem : ∀ x, x ∈ concatArr A B ↔ ((x ∈ A ∨ x ∈ B) ∧ x ≠ "") := by
    intro x
    rw [concatArr, mem_concatArrGo, mem_concatArrGo]
    simp only [List.not_mem_nil, false_or]
    tauto
  refine ⟨concatArr_eq_dedupFirst A B, ?_, ?_, hmem, ?_⟩
  · rw [concatArr_eq_dedupFirst]
    exact nodup_dedupFirst _
  · intro hc
    exact ((hmem "").mp hc).2 rfl
  · show concatArrGo (concatArrGo [] A) A = concatArr A []
    have : concatArr A [] = concatArrGo [] A := rfl
    rw [this]
    refine concatArrGo_no_new A _ (fun x hx => ?_)
    by_cases hxe : x = ""
    · exact Or.inr hxe
    · exact Or.inl ((mem_concatArrGo A [] x).mpr (Or.inr ⟨hx, hxe⟩))

/-! ## C9: `Snackbar.view` timeout -/

/-- C9 counterexample: a snackbar whose message does not end in `'...'` is
still configured to stay open indefinitely when the caller supplies
`timeout = -1` (a value the parameter documentation explicitly allows), so
"timeout of `-1` exactly when the message ends with `'...'`" fails. -/
theorem snackbarTimeoutMs_neg_timeout :
    snackbarTimeoutMs "Signed in." (some (-1)) = -1 ∧
    jsEndsWith "Signed in." "..." = false := by
  exact ⟨rfl, rfl⟩

/-- C9 (amended): `Snackbar.view` sets `timeoutMs` to `-1` whenever the
message ends with `'...'`; for every other message it uses the supplied
timeout, which defaults to `5000` ms when omitted. -/
theorem snackbarTimeoutMs_spec (message : String) (timeoutArg : Option Int) :
    (jsEndsWith message "..." = true → snackbarTimeoutMs message timeoutArg = -1) ∧
    (jsEndsWith message "..." = false →
      snackbarTimeoutMs message timeoutArg = timeoutArg.getD 5000) ∧
    (jsEndsWith message "..." = false → snackbarTimeoutMs message none = 5000) := by
  unfold snackbarTimeoutMs
  refine ⟨fun h => ?_, fun h => ?_, fun h => ?_⟩ <;> simp [h]

theorem snackbarTimeoutMs_spec_witness :
    snackbarTimeoutMs "Sending clock-in request..." none = -1 ∧
    snackbarTimeoutMs "Could not send clock-in." (some 4000) = 4000 := by
  refine ⟨(snackbarTimeoutMs_spec "Sending clock-in request..." none).1 (by decide), ?_⟩
  have h := (snackbarTimeoutMs_spec "Could not send clock-in." (some 4000)).2.1 (by decide)
  simpa using h

/-! ## C5: no automatic retry (refuted by `getAccountURL`) -/

/-- C5 counterexample: one user-initiated `getAccountURL()` call that fails
once issues a second `accountURL` GET via `setTimeout(getAccountURL, 5000)`,
with no new user action — the calling code does retry automatically. -/
theorem getAccountURL_auto_retry :
    (getAccountURLTrace "supervisor-uid" 1).count
        (Eff.httpGet "accountURL" "supervisor-uid") = 2 ∧
    Eff.scheduleInvoke 5000 ∈ getAccountURLOnError := by
  exact ⟨rfl, by decide⟩

/-- C5 (amended): `Data.post`'s error handler only logs and rethrows —
it schedules no retry and issues no request — but `Payments.initStripe`'s
`getAccountURL` schedules an automatic retry of the same request 5000 ms
after every failure, issuing exactly one further GET per failure. -/
theorem errorHandlers_spec :
    dataPostOnError = [Eff.consoleError, Eff.throwErr] ∧
    (∀ d, Eff.scheduleInvoke d ∉ dataPostOnError) ∧
    (∀ e i, Eff.httpGet e i ∉ dataPostOnError) ∧
    (∀ uid n, (getAccountURLTrace uid n).count (Eff.httpGet "accountURL" uid) =
      n + 1) := by
  refine ⟨rfl, ?_, ?_, ?_⟩
  · intro d; simp [dataPostOnError]
  · intro e i; simp [dataPostOnError]
  · intro uid n
    induction n with
    | zero =>
      simp [getAccountURLTrace, getAccountURLOnSuccess, List.count_cons]
    | succ k ih =>
      simp [getAccountURLTrace, getAccountURLOnError, List.count_cons,
        List.count_append, ih]

/-! ## C3: `Data.post` sentinel error handling -/

/-- C3 counterexample: the claim fails in both directions.  A response whose
content is exactly `'ERROR'` has its `'ERROR'` occurrence at index `0`, so
`res.data.indexOf('ERROR') > 0` is false and `Data.post` returns the string
instead of throwing; and the non-sentinel string `'x ERROR'` (neither exactly
`'ERROR'` nor beginning with `'[ERROR] '`, `indexOf('ERROR') === 2`) is
thrown instead of being returned unchanged. -/
theorem postResponseHandler_bare_error :
    postResponseHandler (JSData.str "ERROR".data) =
      Except.ok (JSData.str "ERROR".data) ∧
    postResponseHandler (JSData.str "x ERROR".data) =
      Except.error "x ERROR".data := by
  exact ⟨rfl, by rfl⟩

/-- C3 (amended): `Data.post` throws exactly when the response is a string
containing `'ERROR'` at a strictly positive index, with the first
`'[ERROR] '` occurrence (if any) stripped from the thrown message — in
particular every response beginning with `'[ERROR] '` throws with that
prefix stripped — while a response of exactly `'ERROR'`, any string without
`'ERROR'` past position 0, and any non-string value are returned unchanged. -/
theorem postResponseHandler_spec :
    (∀ s, jsIndexOf s "ERROR".data > 0 →
      postResponseHandler (JSData.str s) =
        Except.error (replaceFirst "[ERROR] ".data [] s)) ∧
    (∀ s, postResponseHandler (JSData.str ("[ERROR] ".data ++ s)) =
      Except.error s) ∧
    postResponseHandler (JSData.str "ERROR".data) =
      Except.ok (JSData.str "ERROR".data) ∧
    (∀ s, jsIndexOf s "ERROR".data ≤ 0 →
      postResponseHandler (JSData.str s) = Except.ok (JSData.str s)) ∧
    (∀ tag, postResponseHandler (JSData.obj tag) = Except.ok (JSData.obj tag)) := by
  refine ⟨?_, fun s => by rfl, rfl, ?_, fun tag => rfl⟩
  · intro s h
    simp [postResponseHandler, h]
  · intro s h
    have hn : ¬(jsIndexOf s "ERROR".data > 0) := by omega
    simp [postResponseHandler, hn]

theorem postResponseHandler_spec_witness :
    postResponseHandler (JSData.str "x ERROR".data) =
      Except.error (replaceFirst "[ERROR] ".data [] "x ERROR".data) ∧
    postResponseHandler (JSData.str ("[ERROR] ".data ++ "oops".data)) =
      Except.error "oops".data ∧
    postResponseHandler (JSData.str "SUCCESS".data) =
      Except.ok (JSData.str "SUCCESS".data) :=
  ⟨postResponseHandler_spec.1 "x ERROR".data (by decide),
   postResponseHandler_spec.2.1 "oops".data,
   postResponseHandler_spec.2.2.2.1 "SUCCESS".data (by decide)⟩

/-! ## C6: the mutating REST wrappers -/

/-- C6: each mutating Data-layer wrapper issues exactly one POST (a singleton
request list) to the single `data` endpoint, carrying the query parameters
`test`, `user`, `action` (the wrapper's action name) and `token` from the app
state, with the wrapper's arguments under the matching payload keys. -/
theorem dataWrappers_spec (env : PostEnv)
    (request payment appt id proof approvedPayment deniedPayment : JSVal) :
    newRequest env request payment =
      [⟨"post", env.functionsURL ++ "data", env.test, env.userUid, "newRequest",
        env.token, [("request", request), ("payment", payment)]⟩] ∧
    approveRequest env request id =
      [⟨"post", env.functionsURL ++ "data", env.test, env.userUid,
        "approveRequest", env.token, [("request", request), ("id", id)]⟩] ∧
    rejectRequest env request id =
      [⟨"post", env.functionsURL ++ "data", env.test, env.userUid,
        "rejectRequest", env.token, [("request", request), ("id", id)]⟩] ∧
    cancelRequest env request id =
      [⟨"post", env.functionsURL ++ "data", env.test, env.userUid,
        "cancelRequest", env.token, [("request", request), ("id", id)]⟩] ∧
    modifyRequest env request id =
      [⟨"post", env.functionsURL ++ "data", env.test, env.userUid,
        "modifyRequest", env.token, [("request", request), ("id", id)]⟩] ∧
    modifyAppt env appt id =
      [⟨"post", env.functionsURL ++ "data", env.test, env.userUid,
        "modifyAppt", env.token, [("appt", appt), ("id", id)]⟩] ∧
    cancelAppt env appt id =
      [⟨"post", env.functionsURL ++ "data", env.test, env.userUid,
        "cancelAppt", env.token, [("appt", appt), ("id", id)]⟩] ∧
    clockIn env appt id proof =
      [⟨"post", env.functionsURL ++ "data", env.test, env.userUid,
        "clockIn", env.token, [("appt", appt), ("id", id), ("proof", proof)]⟩] ∧
    clockOut env appt id proof =
      [⟨"post", env.functionsURL ++ "data", env.test, env.userUid,
        "clockOut", env.token, [("appt", appt), ("id", id), ("proof", proof)]⟩] ∧
    approvePayment env approvedPayment id =
      [⟨"post", env.functionsURL ++ "data", env.test, env.userUid,
        "approvePayment", env.token,
        [("approvedPayment", approvedPayment), ("id", id)]⟩] ∧
    denyPayment env deniedPayment id =
      [⟨"post", env.functionsURL ++ "data", env.test, env.userUid,
        "denyPayment", env.token,
        [("deniedPayment", deniedPayment), ("id", id)]⟩] := by
  exact ⟨rfl, rfl, rfl, rfl, rfl, rfl, rfl, rfl, rfl, rfl, rfl⟩

/-! ## Decimal printing and splitting lemmas (shared by C8 and C2) -/

theorem digitVal_digitChar (d : Nat) (hd : d < 10) : digitVal (digitChar d) = some d := by
  interval_cases d <;> rfl

theorem digitChar_range (d : Nat) (hd : d < 10) :
    48 ≤ (digitChar d).toNat ∧ (digitChar d).toNat ≤ 57 := by
  interval_cases d <;> exact ⟨by decide, by decide⟩

theorem mem_toDecimalAux_range (fuel : Nat) :
    ∀ n c, c ∈ toDecimalAux fuel n → 48 ≤ c.toNat ∧ c.toNat ≤ 57 := by
  induction fuel with
  | zero => intro n c hc; simp [toDecimalAux] at hc
  | succ f ih =>
    intro n c hc
    rw [toDecimalAux] at hc
    by_cases h10 : n < 10
    · rw [if_pos h10] at hc
      simp only [List.mem_singleton] at hc
      subst hc
      exact digitChar_range n h10
    · rw [if_neg h10] at hc
      rcases List.mem_append.mp hc with h | h
      · exact ih _ _ h
      · simp only [List.mem_singleton] at h
        subst h
        exact digitChar_range _ (Nat.mod_lt _ (by omega))

theorem mem_toDecimal_range (n : Nat) (c : Char) (hc : c ∈ toDecimal n) :
    48 ≤ c.toNat ∧ c.toNat ≤ 57 :=
  mem_toDecimalAux_range (n + 1) n c hc

theorem colon_not_mem_toDecimal (n : Nat) : ':' ∉ toDecimal n := by
  intro h
  have := mem_toDecimal_range n ':' h
  simp at this

theorem dot_not_mem_toDecimal (n : Nat) : '.' ∉ toDecimal n := by
  intro h
  have := mem_toDecimal_range n '.' h
  simp at this

theorem space_not_mem_toDecimal (n : Nat) : ' ' ∉ toDecimal n := by
  intro h
  have := mem_toDecimal_range n ' ' h
  simp at this

theorem jsNumber_append_singleton (l : List Char) (c : Char) :
    jsNumber (l ++ [c]) =
      (jsNumber l).bind (fun n => (digitVal c).map (fun d => n * 10 + d)) := by
  unfold jsNumber
  rw [List.foldl_append]
  rfl

theorem jsNumber_toDecimalAux (fuel : Nat) :
    ∀ n, n < fuel → jsNumber (toDecimalAux fuel n) = some n := by
  induction fuel with
  | zero => intro n h; omega
  | succ f ih =>
    intro n h
    rw [toDecimalAux]
    by_cases h10 : n < 10
    · rw [if_pos h10]
      have hd := digitVal_digitChar n h10
      simp [jsNumber, hd]
    · rw [if_neg h10, jsNumber_append_singleton]
      have hdiv : n / 10 < f := by
        have : n / 10 < n := Nat.div_lt_self (by omega) (by omega)
        omega
      rw [ih _ hdiv]
      have hd := digitVal_digitChar (n % 10) (Nat.mod_lt _ (by omega))
      simp [hd]
      omega

theorem jsNumber_toDecimal (n : Nat) : jsNumber (toDecimal n) = some n :=
  jsNumber_toDecimalAux (n + 1) n (Nat.lt_succ_self n)

theorem splitOnC_ne_nil (sep : Char) (l : List Char) : splitOnC sep l ≠ [] := by
  cases l with
  | nil => simp [splitOnC]
  | cons c rest =>
    rw [splitOnC]
    cases h : splitOnC sep rest with
    | nil => by_cases hc : c = sep <;> simp [hc]
    | cons a t => by_cases hc : c = sep <;> simp [hc]

theorem splitOnC_not_mem (sep : Char) (l : List Char) (h : sep ∉ l) :
    splitOnC sep l = [l] := by
  induction l with
  | nil => rfl
  | cons c rest ih =>
    have hc : ¬c = sep := fun e => h (e ▸ List.mem_cons_self c rest)
    have hrest : sep ∉ rest := fun hr => h (List.mem_cons_of_mem _ hr)
    rw [splitOnC, ih hrest]
    simp [hc]

theorem splitOnC_append (sep : Char) (a b : List Char) (h : sep ∉ a) :
    splitOnC sep (a ++ sep :: b) = a :: splitOnC sep b := by
  induction a with
  | nil =>
    simp only [List.nil_append]
    rw [splitOnC]
    cases hsb : splitOnC sep b with
    | nil => exact absurd hsb (splitOnC_ne_nil sep b)
    | cons x t => simp
  | cons c a' ih =>
    have hc : ¬c = sep := fun e => h (e ▸ List.mem_cons_self c a')
    have ha' : sep ∉ a' := fun hr => h (List.mem_cons_of_mem _ hr)
    rw [List.cons_append, splitOnC, ih ha']
    simp [hc]

/-! ## C8: `Data.prototype.initTimes` -/

theorem minString_data (mv : Nat) :
    (minString mv).data =
      if mv < 10 then '0' :: toDecimal mv else toDecimal mv := by
  unfold minString natStr
  by_cases h : mv < 10 <;> simp [h, String.data_append]

theorem minString_digits (mv : Nat) (c : Char) (hc : c ∈ (minString mv).data) :
    48 ≤ c.toNat ∧ c.toNat ≤ 57 := by
  rw [minString_data] at hc
  by_cases h : mv < 10
  · rw [if_pos h] at hc
    rcases List.mem_cons.mp hc with h0 | h0
    · subst h0; exact ⟨by decide, by decide⟩
    · exact mem_toDecimal_range _ _ h0
  · rw [if_neg h] at hc
    exact mem_toDecimal_range _ _ hc

theorem jsNumber_minString (mv : Nat) : jsNumber (minString mv).data = some mv := by
  rw [minString_data]
  by_cases h : mv < 10
  · rw [if_pos h]
    have : jsNumber ('0' :: toDecimal mv) = jsNumber (toDecimal mv) := rfl
    rw [this, jsNumber_toDecimal]
  · rw [if_neg h, jsNumber_toDecimal]

theorem parseTimeString_fmt (hv mv : Nat) (sfx : String)
    (hsfx : sfx = "AM" ∨ sfx = "PM") :
    parseTimeString (natStr hv ++ ":" ++ minString mv ++ " " ++ sfx) =
      some ((if sfx = "AM" then 0 else 720) + (if hv = 12 then 0 else hv) * 60 + mv) := by
  have hdata : (natStr hv ++ ":" ++ minString mv ++ " " ++ sfx).data =
      (toDecimal hv ++ ':' :: (minString mv).data) ++ ' ' :: sfx.data := by
    simp [String.data_append, natStr, (show ":".data = [':'] from rfl),
      (show " ".data = [' '] from rfl)]
  have hsp1 : ' ' ∉ toDecimal hv ++ ':' :: (minString mv).data := by
    intro hmem
    rcases List.mem_append.mp hmem with h | h
    · exact space_not_mem_toDecimal hv h
    · rcases List.mem_cons.mp h with h0 | h0
      · simp at h0
      · have := minString_digits mv ' ' h0
        simp at this

  have hsp2 : splitOnC ' ' sfx.data = [sfx.data] := by
    rcases hsfx with h | h <;> subst h <;> rfl
  have hcl1 : ':' ∉ toDecimal hv := colon_not_mem_toDecimal hv
  have hcl2 : ':' ∉ (minString mv).data := by
    intro hmem
    have := minString_digits mv ':' hmem
    simp at this
  unfold parseTimeString
  rw [hdata, splitOnC_append _ _ _ hsp1, hsp2]
  dsimp only
  rw [splitOnC_append _ _ _ hcl1, splitOnC_not_mem _ _ hcl2]
  dsimp only
  rw [jsNumber_toDecimal, jsNumber_minString]
  rcases hsfx with h | h <;> subst h <;> simp

theorem parseTimeString_minuteString (n : Nat) (hn : n < 1440) :
    parseTimeString (minuteString n) = some n := by
  unfold minuteString
  rw [parseTimeString_fmt _ _ _ (by by_cases h : n < 720 <;> simp [h])]
  by_cases h720 : n < 720 <;> by_cases hz : (n / 60) % 12 = 0
  · simp +decide [h720, hz]
    omega
  · simp +decide [h720, hz, (show ¬((n / 60) % 12 = 12) by omega)]
    omega
  · simp +decide [h720, hz]
    omega
  · simp +decide [h720, hz, (show ¬((n / 60) % 12 = 12) by omega)]
    omega

theorem range_mul_flatMap (a b : Nat) :
    List.range (a * b) =
      (List.range a).flatMap (fun i => (List.range b).map (fun j => i * b + j)) := by
  induction a with
  | zero => simp
  | succ a ih =>
    rw [Nat.succ_mul, List.range_add, ih, List.range_succ, List.flatMap_append]
    congr 1
    simp

theorem minuteString_of (H m : Nat) (hH : H < 24) (hm : m < 60) :
    minuteString (H * 60 + m) =
      natStr (if H % 12 = 0 then 12 else H % 12) ++ ":" ++ minString m ++ " " ++
        (if H < 12 then "AM" else "PM") := by
  simp only [minuteString]
  have h1 : (H * 60 + m) / 60 = H := by omega
  have h2 : (H * 60 + m) % 60 = m := by omega
  rw [h1, h2]
  by_cases h12 : H < 12
  · rw [if_pos (show H * 60 + m < 720 by omega), if_pos h12]
  · rw [if_neg (show ¬(H * 60 + m < 720) by omega), if_neg h12]

theorem initTimes_eq : initTimes = (List.range 1440).map minuteString := by
  have h0 : (1440 : Nat) = 24 * 60 := by norm_num
  rw [h0, range_mul_flatMap, List.map_flatMap]
  have h24 : List.range 24 = List.range 12 ++ (List.range 12).map (fun x => 12 + x) := by
    have h : (24 : Nat) = 12 + 12 := by norm_num
    rw [h, List.range_add]
  rw [h24, List.flatMap_append, List.flatMap_map, List.range_succ_eq_map 11]
  rw [List.flatMap_cons, List.flatMap_cons, List.flatMap_map, List.flatMap_map]
  rw [initTimes]
  simp only [List.flatMap_cons, List.flatMap_nil, List.append_nil, List.flatMap_map]
  have e1 : List.map (fun min => "12:" ++ minString min ++ " " ++ "AM") (List.range 60) =
      List.map minuteString (List.map (fun j => 0 * 60 + j) (List.range 60)) := by
    rw [List.map_map]
    refine List.map_congr_left (fun m hm => ?_)
    have hm' : m < 60 := List.mem_range.mp hm
    show _ = minuteString (0 * 60 + m)
    rw [minuteString_of 0 m (by norm_num) hm']
    norm_num
    rw [show ("12:" : String) = natStr 12 ++ ":" from rfl]
  have e2 : ((List.range 11).flatMap fun a =>
        List.map (fun min => natStr (a + 1) ++ ":" ++ minString min ++ " " ++ "AM")
          (List.range 60)) =
      (List.range 11).flatMap fun a =>
        List.map minuteString (List.map (fun j => a.succ * 60 + j) (List.range 60)) := by
    refine List.flatMap_congr (fun a ha => ?_)
    have ha' : a < 11 := List.mem_range.mp ha
    rw [List.map_map]
    refine List.map_congr_left (fun m hm => ?_)
    have hm' : m < 60 := List.mem_range.mp hm
    show _ = minuteString (a.succ * 60 + m)
    rw [show a.succ = a + 1 from rfl, minuteString_of (a + 1) m (by omega) hm']
    rw [show (a + 1) % 12 = a + 1 by omega]
    rw [if_neg (by omega), if_pos (by omega)]
  have e3 : List.map (fun min => "12:" ++ minString min ++ " " ++ "PM") (List.range 60) =
      List.map minuteString (List.map (fun j => (12 + 0) * 60 + j) (List.range 60)) := by
    rw [List.map_map]
    refine List.map_congr_left (fun m hm => ?_)
    have hm' : m < 60 := List.mem_range.mp hm
    show _ = minuteString ((12 + 0) * 60 + m)
    rw [show (12 + 0) * 60 + m = 12 * 60 + m by norm_num,
      minuteString_of 12 m (by norm_num) hm']
    norm_num
    rw [show ("12:" : String) = natStr 12 ++ ":" from rfl]
  have e4 : ((List.range 11).flatMap fun a =>
        List.map (fun min => natStr (a + 1) ++ ":" ++ minString min ++ " " ++ "PM")
          (List.range 60)) =
      (List.range 11).flatMap fun a =>
        List.map minuteString (List.map (fun j => (12 + a.succ) * 60 + j) (List.range 60)) := by
    refine List.flatMap_congr (fun a ha => ?_)
    have ha' : a < 11 := List.mem_range.mp ha
    rw [List.map_map]
    refine List.map_congr_left (fun m hm => ?_)
    have hm' : m < 60 := List.mem_range.mp hm
    show _ = minuteString ((12 + a.succ) * 60 + m)
    rw [show a.succ = a + 1 from rfl, minuteString_of (12 + (a + 1)) m (by omega) hm']
    rw [show (12 + (a + 1)) % 12 = a + 1 by omega]
    rw [if_neg (by omega), if_neg (show ¬(12 + (a + 1) < 12) by omega)]
  exact congrArg₂ (· ++ ·) (congrArg₂ (· ++ ·) e1 e2) (congrArg₂ (· ++ ·) e3 e4)

/-- C8: `Data.prototype.initTimes` produces exactly the 1440 twelve-hour
display strings of the minutes of a day, in minute order: entry `n` is
`minuteString n`, so the AM block (minutes 0–719) precedes the PM block
(minutes 720–1439), each block starts with its sixty 12-o'clock minutes
(`'12:00 AM'` is first overall) followed by hours 1–11 in order, minutes are
zero-padded to two digits, and no string occurs twice. -/
theorem initTimes_spec :
    initTimes = (List.range 1440).map minuteString ∧
    initTimes.length = 1440 ∧
    initTimes.headD "" = "12:00 AM" ∧
    initTimes.Nodup := by
  refine ⟨initTimes_eq, ?_, ?_, ?_⟩
  · rw [initTimes_eq]
    simp
  · rw [initTimes_eq, List.range_succ_eq_map]
    simp only [List.map_cons, List.headD_cons]
    rfl
  · rw [initTimes_eq]
    refine List.Nodup.map_on ?_ (List.nodup_range 1440)
    intro x hx y hy hf
    have hxr := parseTimeString_minuteString x (List.mem_range.mp hx)
    have hyr := parseTimeString_minuteString y (List.mem_range.mp hy)
    rw [hf, hyr] at hxr
    exact (Option.some.inj hxr).symm

/-! ## C4: malformed identifiers in `getUser` / `deleteUser` / `updateUser` -/

theorem findSub_singleton_mem (c : Char) (l : List Char) (h : c ∈ l) :
    findSub [c] l ≠ none := by
  induction l with
  | nil => simp at h
  | cons a t ih =>
    rw [findSub]
    by_cases hp : listPrefixOf [c] (a :: t) = true
    · rw [if_pos hp]; simp
    · rw [if_neg hp]
      rcases List.mem_cons.mp h with h0 | h0
      · exfalso
        apply hp
        subst h0
        simp [listPrefixOf]
      · cases hx : findSub [c] t with
        | none => exact absurd hx (ih h0)
        | some i => simp [hx]

theorem jsIndexOf_singleton_nonneg (l : List Char) (c : Char) (h : c ∈ l) :
    jsIndexOf l [c] ≥ 0 := by
  unfold jsIndexOf
  cases hfs : findSub [c] l with
  | none => exact absurd hfs (findSub_singleton_mem c l h)
  | some i => exact Int.ofNat_nonneg i

theorem exceptBind_ok {ε α β : Type} (x : α) (f : α → Except ε β) :
    (Except.ok x >>= f) = f x := rfl

theorem exceptBind_error {ε α β : Type} (e : ε) (f : α → Except ε β) :
    ((Except.error e : Except ε α) >>= f) = Except.error e := rfl

theorem foldl_setLocation_fields (env : AppEnv) (locs : List String) :
    ∀ u : User,
      ((locs.foldl (fun u loc =>
        { u with location :=
            if env.locationNames.contains loc then loc
            else env.appLocationName }) u).uid = u.uid ∧
       (locs.foldl (fun u loc =>
        { u with location :=
            if env.locationNames.contains loc then loc
            else env.appLocationName }) u).id = u.id ∧
       (locs.foldl (fun u loc =>
        { u with location :=
            if env.locationNames.contains loc then loc
            else env.appLocationName }) u).email = u.email) := by
  induction locs with
  | nil => intro u; exact ⟨rfl, rfl, rfl⟩
  | cons loc rest ih =>
    intro u
    simpa using ih { u with location :=
      if env.locationNames.contains loc then loc else env.appLocationName }

theorem updateUserLocation_ids (env : AppEnv) (u u2 : User)
    (h : updateUserLocation env u = Except.ok u2) :
    u2.uid = u.uid ∧ u2.id = u.id ∧ u2.email = u.email := by
  unfold updateUserLocation at h
  cases hav : u.availability with
  | none => rw [hav] at h; cases h
  | some av =>
    rw [hav] at h
    have h2 := Except.ok.inj h
    subst h2
    simpa using foldl_setLocation_fields env (av.map Prod.fst) u

theorem applyUpdateUserAvailability_of_falsy_uid (user : User) (appts : List Appt)
    (h : user.uid = "") : applyUpdateUserAvailability user appts = user := by
  simp [applyUpdateUserAvailability, updateUserAvailability, h]

/-- C4: `getUser` and `deleteUser` throw for every falsy (`undefined` or
empty) id and for every id containing `'@'`; `updateUser` throws for every
user with no `uid`, no `id` and no `email`, and for every user whose
identifiers include an email but no `uid`.  In each case the result is
`Except.error`, which carries no `DBOp`: the `users`-collection write of the
`.ok` branch is never issued. -/
theorem userIdValidation_spec :
    (∃ e, getUser none = Except.error e) ∧
    (∃ e, getUser (some "") = Except.error e) ∧
    (∀ s : String, '@' ∈ s.data → ∃ e, getUser (some s) = Except.error e) ∧
    (∃ e, deleteUser none = Except.error e) ∧
    (∃ e, deleteUser (some "") = Except.error e) ∧
    (∀ s : String, '@' ∈ s.data → ∃ e, deleteUser (some s) = Except.error e) ∧
    (∀ (env : AppEnv) (user : User) (appts : List Appt),
      user.id = "" → user.email = "" → user.uid = "" →
      ∃ e, updateUser env user appts = Except.error e) ∧
    (∀ (env : AppEnv) (user : User) (appts : List Appt),
      user.email ≠ "" → user.uid = "" →
      ∃ e, updateUser env user appts = Except.error e) := by
  refine ⟨⟨_, rfl⟩, ⟨_, rfl⟩, ?_, ⟨_, rfl⟩, ⟨_, rfl⟩, ?_, ?_, ?_⟩
  · intro s hs
    by_cases he : s = ""
    · subst he; exact ⟨_, rfl⟩
    · have hf : jsFalsyStr (some s) = false := by simp [jsFalsyStr, he]
      have hge := jsIndexOf_singleton_nonneg s.data '@' hs
      refine ⟨"Using an email as a user ID is deprecated.", ?_⟩
      unfold getUser
      rw [if_neg (by simp [hf]), if_pos (by simpa using hge)]
  · intro s hs
    by_cases he : s = ""
    · subst he; exact ⟨_, rfl⟩
    · have hf : jsFalsyStr (some s) = false := by simp [jsFalsyStr, he]
      have hge := jsIndexOf_singleton_nonneg s.data '@' hs
      refine ⟨"Using an email as a user ID is deprecated.", ?_⟩
      unfold deleteUser
      rw [if_neg (by simp [hf]), if_pos (by simpa using hge)]
  · intro env user appts hid hemail huid
    have h1 := applyUpdateUserAvailability_of_falsy_uid user appts huid
    unfold updateUser
    rw [h1]
    cases h2 : updateUserLocation env user with
    | error e => exact ⟨e, by simp only [h2, exceptBind_error]⟩
    | ok user2 =>
      obtain ⟨hu, hi, he⟩ := updateUserLocation_ids env user user2 h2
      refine ⟨"Could not update user b/c id was undefined.", ?_⟩
      simp only [h2, exceptBind_ok]
      rw [if_pos ⟨hi.trans hid, he.trans hemail, hu.trans huid⟩]
  · intro env user appts hemail huid
    have h1 := applyUpdateUserAvailability_of_falsy_uid user appts huid
    unfold updateUser
    rw [h1]
    cases h2 : updateUserLocation env user with
    | error e => exact ⟨e, by simp only [h2, exceptBind_error]⟩
    | ok user2 =>
      obtain ⟨hu, hi, he⟩ := updateUserLocation_ids env user user2 h2
      refine ⟨"Using an email as a user ID is deprecated.", ?_⟩
      simp only [h2, exceptBind_ok]
      rw [if_neg (fun hc => hemail (he.symm.trans hc.2.1)),
        if_neg (by rw [hu, huid]; simp)]

theorem userIdValidation_spec_witness :
    (∃ e, getUser (some "user@example.com") = Except.error e) ∧
    (∃ e, deleteUser (some "user@example.com") = Except.error e) ∧
    (∃ e, updateUser ⟨["Loc"], "Loc", "Tutor", "sup"⟩
      { email := "user@example.com" } [] = Except.error e) ∧
    (∃ e, updateUser ⟨["Loc"], "Loc", "Tutor", "sup"⟩ {} [] = Except.error e) :=
  ⟨userIdValidation_spec.2.2.1 "user@example.com" (by decide),
   userIdValidation_spec.2.2.2.2.2.1 "user@example.com" (by decide),
   userIdValidation_spec.2.2.2.2.2.2.2 ⟨["Loc"], "Loc", "Tutor", "sup"⟩
     { email := "user@example.com" } [] (by decide) rfl,
   userIdValidation_spec.2.2.2.2.2.2.1 ⟨["Loc"], "Loc", "Tutor", "sup"⟩
     {} [] rfl rfl rfl⟩

/-! ## C7: `Data.createUser` dispatch -/

/-- C7: `createUser` writes `users/{uid}` directly for every user with a
truthy `uid`; for a user without `uid` (but with some identifier) it issues
the `createProxyUser` REST action when the app user is a Supervisor whose id
differs from the new user's id, and otherwise writes `usersByEmail` keyed by
`user.id || user.email`; it throws for a user with no id, no uid and no
email. -/
theorem createUser_spec (env : AppEnv) (user : User) :
    (user.uid ≠ "" →
      createUser env user = Except.ok (CreateUserAct.setUsersDoc user.uid)) ∧
    (user.uid = "" → ¬(user.id = "" ∧ user.email = "") →
      env.appUserType = "Supervisor" → env.appUserId ≠ user.id →
      createUser env user = Except.ok CreateUserAct.postCreateProxyUser) ∧
    (user.uid = "" → ¬(user.id = "" ∧ user.email = "") →
      ¬(env.appUserType = "Supervisor" ∧ env.appUserId ≠ user.id) →
      createUser env user = Except.ok (CreateUserAct.setUsersByEmailDoc
        (if user.id ≠ "" then user.id else user.email))) ∧
    (user.id = "" → user.uid = "" → user.email = "" →
      ∃ e, createUser env user = Except.error e) := by
  unfold createUser
  refine ⟨?_, ?_, ?_, ?_⟩
  · intro h
    rw [if_neg (fun hc => h hc.2.1), if_pos h]
  · intro h1 h2 h3 h4
    rw [if_neg (fun hc => h2 ⟨hc.1, hc.2.2⟩), if_neg (by simp [h1]),
      if_pos ⟨h3, h4⟩]
  · intro h1 h2 h3
    rw [if_neg (fun hc => h2 ⟨hc.1, hc.2.2⟩), if_neg (by simp [h1]), if_neg h3]
  · intro h1 h2 h3
    exact ⟨_, by rw [if_pos ⟨h1, h2, h3⟩]⟩

theorem createUser_spec_witness :
    createUser ⟨["Loc"], "Loc", "Supervisor", "sup-id"⟩ { uid := "u1" } =
      Except.ok (CreateUserAct.setUsersDoc "u1") ∧
    createUser ⟨["Loc"], "Loc", "Supervisor", "sup-id"⟩ { id := "kid-id" } =
      Except.ok CreateUserAct.postCreateProxyUser ∧
    createUser ⟨["Loc"], "Loc", "Tutor", "me"⟩ { email := "kid@example.com" } =
      Except.ok (CreateUserAct.setUsersByEmailDoc "kid@example.com") ∧
    (∃ e, createUser ⟨["Loc"], "Loc", "Tutor", "me"⟩ {} = Except.error e) :=
  ⟨(createUser_spec ⟨["Loc"], "Loc", "Supervisor", "sup-id"⟩ { uid := "u1" }).1
      (by decide),
   by
     have h := (createUser_spec ⟨["Loc"], "Loc", "Supervisor", "sup-id"⟩
       { id := "kid-id" }).2.1 rfl (by simp) rfl (by decide)
     exact h,
   by
     have h := (createUser_spec ⟨["Loc"], "Loc", "Tutor", "me"⟩
       { email := "kid@example.com" }).2.2.1 rfl (by simp) (by simp)
     simpa using h,
   (createUser_spec ⟨["Loc"], "Loc", "Tutor", "me"⟩ {}).2.2.2 rfl rfl rfl⟩

/-! ## C2: `ViewApptDialog.update` -/

theorem clockParts_fallback (v : List Char) (q : Nat × Nat × Nat × Nat)
    (h : clockParts false v = some q) : clockParts true v = some q := by
  unfold clockParts at h ⊢
  rcases hx1 : jsNumberO ((splitOnC ':' v).get? 0) with _ | a <;> rw [hx1] at h
  · simp at h
  rcases hx2 : jsNumberO ((splitOnC ':' v).get? 1) with _ | b <;> rw [hx2] at h
  · simp at h
  rcases hx3 : jsNumberO (((splitOnC ':' v).get? 2).map
      (fun p => (splitOnC '.' p).headD [])) with _ | c <;> rw [hx3] at h
  · simp at h
  rcases hx4 : jsNumberO ((splitOnC '.' v).get? 1) with _ | d <;> rw [hx4] at h
  · simp at h
  simp only [Option.bind_some, if_true, Option.getD_some] at h ⊢
  simpa using h

theorem fmtClock_shape (h m s cc : Nat) :
    fmtClock (h, m, s, cc) =
      toDecimal h ++ ':' :: (toDecimal m ++ ':' ::
        (toDecimal s ++ '.' :: toDecimal cc)) := by
  simp [fmtClock]

theorem clockParts_fmtClock (fb : Bool) (h m s cc : Nat) :
    clockParts fb (fmtClock (h, m, s, cc)) = some (h, m, s, cc) := by
  have hA : splitOnC ':' (fmtClock (h, m, s, cc)) =
      [toDecimal h, toDecimal m, toDecimal s ++ '.' :: toDecimal cc] := by
    rw [fmtClock_shape,
      splitOnC_append ':' _ _ (colon_not_mem_toDecimal h),
      splitOnC_append ':' _ _ (colon_not_mem_toDecimal m),
      splitOnC_not_mem ':' _ ?_]
    intro hmem
    rcases List.mem_append.mp hmem with h0 | h0
    · exact colon_not_mem_toDecimal s h0
    · rcases List.mem_cons.mp h0 with h1 | h1
      · simp at h1
      · exact colon_not_mem_toDecimal cc h1
  have hB : splitOnC '.' (toDecimal s ++ '.' :: toDecimal cc) =
      [toDecimal s, toDecimal cc] := by
    rw [splitOnC_append '.' _ _ (dot_not_mem_toDecimal s),
      splitOnC_not_mem '.' _ (dot_not_mem_toDecimal cc)]
  have hC : splitOnC '.' (fmtClock (h, m, s, cc)) =
      [toDecimal h ++ ':' :: (toDecimal m ++ ':' :: toDecimal s), toDecimal cc] := by
    have hshape : fmtClock (h, m, s, cc) =
        (toDecimal h ++ ':' :: (toDecimal m ++ ':' :: toDecimal s)) ++
          '.' :: toDecimal cc := by
      simp [fmtClock]
    rw [hshape, splitOnC_append '.' _ _ ?_,
      splitOnC_not_mem '.' _ (dot_not_mem_toDecimal cc)]
    intro hmem
    rcases List.mem_append.mp hmem with h0 | h0
    · exact dot_not_mem_toDecimal h h0
    · rcases List.mem_cons.mp h0 with h1 | h1
      · simp at h1
      · rcases List.mem_append.mp h1 with h2 | h2
        · exact dot_not_mem_toDecimal m h2
        · rcases List.mem_cons.mp h2 with h3 | h3
          · simp at h3
          · exact dot_not_mem_toDecimal s h3
  unfold clockParts
  rw [hA, hC]
  cases fb <;> simp [hB, jsNumberO, jsNumber_toDecimal]

theorem centisOf_tickCarry (h m s cc : Nat) (hm : m < 60) (hs : s < 60)
    (hcc : cc < 100) :
    centisOf (tickCarry (h, m, s, cc)) = centisOf (h, m, s, cc) + 1 := by
  simp only [tickCarry, centisOf]
  split_ifs <;> simp_all <;> omega

/-- C2: on well-formed `H:M:S.CC` displays (`M < 60`, `S < 60`, `CC < 100`),
one invocation of `ViewApptDialog.update` rewrites both the `Current` and the
`Total` display, and — reading a display as total centiseconds
`((H*60 + M)*60 + S)*100 + CC` — each new display reads as exactly the old
value plus one, the carries applying at 100 centiseconds, 60 seconds and 60
minutes. -/
theorem viewApptDialogUpdate_spec (cur tot : List Char)
    (h m s cc h2 m2 s2 cc2 : Nat)
    (hcur : clockParts false cur = some (h, m, s, cc))
    (hm : m < 60) (hs : s < 60) (hcc : cc < 100)
    (htot : clockParts false tot = some (h2, m2, s2, cc2))
    (hm2 : m2 < 60) (hs2 : s2 < 60) (hcc2 : cc2 < 100) :
    ∃ cur2 tot2, viewApptDialogUpdate cur tot = some (cur2, tot2) ∧
      displayCentis cur = some (centisOf (h, m, s, cc)) ∧
      displayCentis tot = some (centisOf (h2, m2, s2, cc2)) ∧
      displayCentis cur2 = some (centisOf (h, m, s, cc) + 1) ∧
      displayCentis tot2 = some (centisOf (h2, m2, s2, cc2) + 1) := by
  have hc := clockParts_fallback cur _ hcur
  refine ⟨fmtClock (tickCarry (h, m, s, cc)), fmtClock (tickCarry (h2, m2, s2, cc2)),
    ?_, ?_, ?_, ?_, ?_⟩
  · simp [viewApptDialogUpdate, updateTimeValue, hc, htot]
  · simp [displayCentis, hcur]
  · simp [displayCentis, htot]
  · have ht := centisOf_tickCarry h m s cc hm hs hcc
    rcases htc : tickCarry (h, m, s, cc) with ⟨a, b, c, d⟩
    rw [displayCentis, clockParts_fmtClock]
    rw [htc] at ht
    simp [ht]
  · have ht := centisOf_tickCarry h2 m2 s2 cc2 hm2 hs2 hcc2
    rcases htc : tickCarry (h2, m2, s2, cc2) with ⟨a, b, c, d⟩
    rw [displayCentis, clockParts_fmtClock]
    rw [htc] at ht
    simp [ht]

theorem viewApptDialogUpdate_spec_witness :
    ∃ cur2 tot2,
      viewApptDialogUpdate "0:59:59.99".data "1:2:3.9".data = some (cur2, tot2) ∧
      displayCentis "0:59:59.99".data = some (centisOf (0, 59, 59, 99)) ∧
      displayCentis "1:2:3.9".data = some (centisOf (1, 2, 3, 9)) ∧
      displayCentis cur2 = some (centisOf (0, 59, 59, 99) + 1) ∧
      displayCentis tot2 = some (centisOf (1, 2, 3, 9) + 1) :=
  viewApptDialogUpdate_spec "0:59:59.99".data "1:2:3.9".data 0 59 59 99 1 2 3 9
    (by decide) (by decide) (by decide) (by decide) (by decide) (by decide)
    (by decide) (by decide)

/-! ## C1: `Data.updateUserAvailability` -/

theorem slotsAt_nil (loc day : String) : slotsAt [] loc day = [] := rfl

theorem slotsAt_updSlots (m : AvailMap) (loc day : String)
    (f : List Timeslot → List Timeslot) (loc' day' : String) :
    slotsAt (updSlots m loc day f) loc' day' =
      if loc' = loc ∧ day' = day then f (slotsAt m loc day)
      else slotsAt m loc' day' := by
  unfold slotsAt updSlots
  rw [getKey_updKey]
  by_cases hl : loc' = loc
  · subst hl
    rw [if_pos rfl]
    simp only [Option.getD_some]
    rw [getKey_updKey]
    by_cases hd : day' = day
    · subst hd
      simp
    · rw [if_neg hd, if_neg (fun hc => hd hc.2)]
  · rw [if_neg hl, if_neg (fun hc => hl hc.1)]

theorem slotsAt_ensureLoc (m : AvailMap) (loc loc' day' : String) :
    slotsAt (updKey m loc (fun days => days.getD [])) loc' day' =
      slotsAt m loc' day' := by
  unfold slotsAt
  rw [getKey_updKey]
  by_cases hl : loc' = loc
  · subst hl
    rw [if_pos rfl]
    simp
  · rw [if_neg hl]

theorem hasSlotWith_iff (slots : List Timeslot) (o c : String) :
    hasSlotWith slots o c = true ↔ ∃ t ∈ slots, t.«open» = o ∧ t.close = c := by
  simp [hasSlotWith, List.any_eq_true]

theorem mem_pushSlot_of_mem (o c : String) (b : Bool) (slots : List Timeslot)
    (t : Timeslot) (h : t ∈ slots) : t ∈ pushSlot o c b slots := by
  unfold pushSlot
  split_ifs
  · exact h
  · exact List.mem_append_left _ h

theorem mem_pushSlot (o c : String) (b : Bool) (slots : List Timeslot)
    (t : Timeslot) (h : t ∈ pushSlot o c b slots) :
    t ∈ slots ∨ t = ⟨o, c, b⟩ := by
  unfold pushSlot at h
  split_ifs at h
  · exact Or.inl h
  · rcases List.mem_append.mp h with h0 | h0
    · exact Or.inl h0
    · exact Or.inr (List.mem_singleton.mp h0)

theorem pairwise_pushSlot (o c : String) (b : Bool) (slots : List Timeslot)
    (h : slots.Pairwise distinctOC) :
    (pushSlot o c b slots).Pairwise distinctOC := by
  unfold pushSlot
  split_ifs with hc
  · exact h
  · rw [List.pairwise_append]
    refine ⟨h, by simp [distinctOC], ?_⟩
    intro t ht x hx
    rw [List.mem_singleton] at hx
    subst hx
    intro hcon
    apply absurd (hasSlotWith_iff slots o c |>.mpr ⟨t, ht, hcon.1, hcon.2⟩)
    simp [hc]

theorem exists_slot_pushSlot (o c : String) (b : Bool) (slots : List Timeslot) :
    ∃ t ∈ pushSlot o c b slots, t.«open» = o ∧ t.close = c := by
  unfold pushSlot
  by_cases hc : hasSlotWith slots o c
  · rw [if_pos hc]
    obtain ⟨t, ht, h1, h2⟩ := (hasSlotWith_iff slots o c).mp hc
    exact ⟨t, ht, h1, h2⟩
  · rw [if_neg hc]
    exact ⟨⟨o, c, b⟩, List.mem_append_right _ (List.mem_singleton_self _), rfl, rfl⟩

theorem slotsMono_refl (m : AvailMap) : slotsMono m m := fun _ _ _ h => h

theorem slotsMono_trans {m1 m2 m3 : AvailMap} (h1 : slotsMono m1 m2)
    (h2 : slotsMono m2 m3) : slotsMono m1 m3 :=
  fun loc day t h => h2 loc day t (h1 loc day t h)

theorem slotsMono_addAppt (m : AvailMap) (a : Appt) : slotsMono m (addAppt m a) := by
  intro loc day t h
  unfold addAppt
  rw [slotsAt_updSlots]
  split_ifs with hc
  · obtain ⟨h1, h2⟩ := hc
    subst h1; subst h2
    exact mem_pushSlot_of_mem _ _ _ _ _ h
  · exact h

theorem slotsMono_addPriorTimeslot (m : AvailMap) (loc day : String)
    (ts : Timeslot) : slotsMono m (addPriorTimeslot m loc day ts) := by
  intro loc' day' t h
  unfold addPriorTimeslot
  rw [slotsAt_updSlots]
  split_ifs with hc
  · obtain ⟨h1, h2⟩ := hc
    subst h1; subst h2
    exact mem_pushSlot_of_mem _ _ _ _ _ h
  · exact h

theorem InvBooked_addAppt (appts : List Appt) (m : AvailMap) (a : Appt)
    (ha : a ∈ appts) (hm : InvBooked appts m) : InvBooked appts (addAppt m a) := by
  intro loc day t ht hb
  unfold addAppt at ht
  rw [slotsAt_updSlots] at ht
  split_ifs at ht with hc
  · obtain ⟨h1, h2⟩ := hc
    rcases mem_pushSlot _ _ _ _ _ ht with h0 | h0
    · subst h1; subst h2
      exact hm _ _ t h0 hb
    · subst h0
      subst h1; subst h2
      exact ⟨a, ha, rfl, rfl, rfl, rfl⟩
  · exact hm _ _ t ht hb

theorem InvBooked_addPriorTimeslot (appts : List Appt) (m : AvailMap)
    (loc day : String) (ts : Timeslot) (hm : InvBooked appts m) :
    InvBooked appts (addPriorTimeslot m loc day ts) := by
  intro loc' day' t ht hb
  unfold addPriorTimeslot at ht
  rw [slotsAt_updSlots] at ht
  split_ifs at ht with hc
  · obtain ⟨h1, h2⟩ := hc
    rcases mem_pushSlot _ _ _ _ _ ht with h0 | h0
    · subst h1; subst h2
      exact hm _ _ t h0 hb
    · subst h0
      simp at hb
  · exact hm _ _ t ht hb

theorem InvNodupOC_addAppt (m : AvailMap) (a : Appt) (hm : InvNodupOC m) :
    InvNodupOC (addAppt m a) := by
  intro loc day
  unfold addAppt
  rw [slotsAt_updSlots]
  split_ifs
  · exact pairwise_pushSlot _ _ _ _ (hm _ _)
  · exact hm _ _

theorem InvNodupOC_addPriorTimeslot (m : AvailMap) (loc day : String)
    (ts : Timeslot) (hm : InvNodupOC m) :
    InvNodupOC (addPriorTimeslot m loc day ts) := by
  intro loc' day'
  unfold addPriorTimeslot
  rw [slotsAt_updSlots]
  split_ifs
  · exact pairwise_pushSlot _ _ _ _ (hm _ _)
  · exact hm _ _

theorem InvAllBooked_addAppt (m : AvailMap) (a : Appt) (hm : InvAllBooked m) :
    InvAllBooked (addAppt m a) := by
  intro loc day t ht
  unfold addAppt at ht
  rw [slotsAt_updSlots] at ht
  split_ifs at ht with hc
  · obtain ⟨h1, h2⟩ := hc
    rcases mem_pushSlot _ _ _ _ _ ht with h0 | h0
    · subst h1; subst h2
      exact hm _ _ t h0
    · subst h0; rfl
  · exact hm _ _ t ht

theorem trueSlot_addAppt (m : AvailMap) (a : Appt) (hm : InvAllBooked m) :
    ∃ t ∈ slotsAt (addAppt m a) a.location.name a.time.day,
      t.«open» = a.time.«from» ∧ t.close = a.time.«to» ∧ t.booked = true := by
  unfold addAppt
  rw [slotsAt_updSlots, if_pos ⟨rfl, rfl⟩]
  obtain ⟨t, ht, h1, h2⟩ := exists_slot_pushSlot a.time.«from» a.time.«to» true
    (slotsAt m a.location.name a.time.day)
  refine ⟨t, ht, h1, h2, ?_⟩
  rcases mem_pushSlot _ _ _ _ _ ht with h0 | h0
  · exact hm _ _ t h0
  · subst h0; rfl

theorem falseSlot_addPriorTimeslot (appts : List Appt) (m : AvailMap)
    (loc day : String) (ts : Timeslot) (hm : InvBooked appts m)
    (hno : noMatch appts loc day ts) :
    falseSlotAt (addPriorTimeslot m loc day ts) loc day ts := by
  unfold addPriorTimeslot falseSlotAt
  rw [slotsAt_updSlots, if_pos ⟨rfl, rfl⟩]
  obtain ⟨t, ht, h1, h2⟩ := exists_slot_pushSlot ts.«open» ts.close false
    (slotsAt m loc day)
  refine ⟨t, ht, h1, h2, ?_⟩
  rcases mem_pushSlot _ _ _ _ _ ht with h0 | h0
  · cases hb : t.booked with
    | false => rfl
    | true =>
      exfalso
      apply hno
      obtain ⟨a, ha, hmatch⟩ := hm loc day t h0 hb
      exact ⟨a, ha, by rwa [h1, h2] at hmatch⟩
  · subst h0; rfl

theorem falseSlotAt_mono {m m' : AvailMap} (h : slotsMono m m') {loc day : String}
    {ts : Timeslot} (hf : falseSlotAt m loc day ts) : falseSlotAt m' loc day ts := by
  obtain ⟨t, ht, h1, h2, h3⟩ := hf
  exact ⟨t, h _ _ t ht, h1, h2, h3⟩

theorem slotsAt_updSlots_id (m : AvailMap) (loc day loc' day' : String) :
    slotsAt (updSlots m loc day id) loc' day' = slotsAt m loc' day' := by
  rw [slotsAt_updSlots]
  split_ifs with hc
  · obtain ⟨h1, h2⟩ := hc
    subst h1; subst h2
    rfl
  · rfl

theorem apptFold_spec (appts : List Appt) (l : List Appt) :
    ∀ m, (∀ x ∈ l, x ∈ appts) → InvBooked appts m → InvNodupOC m →
      InvAllBooked m →
    (InvBooked appts (l.foldl addAppt m) ∧ InvNodupOC (l.foldl addAppt m) ∧
     InvAllBooked (l.foldl addAppt m) ∧ slotsMono m (l.foldl addAppt m) ∧
     ∀ a ∈ l, ∃ t ∈ slotsAt (l.foldl addAppt m) a.location.name a.time.day,
       t.«open» = a.time.«from» ∧ t.close = a.time.«to» ∧ t.booked = true) := by
  induction l with
  | nil =>
    intro m _ h1 h2 h3
    exact ⟨h1, h2, h3, slotsMono_refl m, by simp⟩
  | cons a l' ih =>
    intro m hl h1 h2 h3
    have ha : a ∈ appts := hl a (List.mem_cons_self _ _)
    have hl' : ∀ x ∈ l', x ∈ appts := fun x hx => hl x (List.mem_cons_of_mem _ hx)
    obtain ⟨H1, H2, H3, Hmono, Hpres⟩ := ih (addAppt m a) hl'
      (InvBooked_addAppt appts m a ha h1) (InvNodupOC_addAppt m a h2)
      (InvAllBooked_addAppt m a h3)
    rw [List.foldl_cons]
    refine ⟨H1, H2, H3, slotsMono_trans (slotsMono_addAppt m a) Hmono, ?_⟩
    intro b hb
    rcases List.mem_cons.mp hb with h0 | h0
    · subst h0
      obtain ⟨t, ht, hto, htc, htb⟩ := trueSlot_addAppt m b h3
      exact ⟨t, Hmono _ _ t ht, hto, htc, htb⟩
    · exact Hpres b h0

theorem priorSlotFold_spec (appts : List Appt) (loc day : String)
    (tss : List Timeslot) :
    ∀ m, InvBooked appts m → InvNodupOC m →
    (InvBooked appts (tss.foldl (fun acc ts => addPriorTimeslot acc loc day ts) m) ∧
     InvNodupOC (tss.foldl (fun acc ts => addPriorTimeslot acc loc day ts) m) ∧
     slotsMono m (tss.foldl (fun acc ts => addPriorTimeslot acc loc day ts) m) ∧
     ∀ ts ∈ tss, noMatch appts loc day ts →
       falseSlotAt (tss.foldl (fun acc ts => addPriorTimeslot acc loc day ts) m)
         loc day ts) := by
  induction tss with
  | nil =>
    intro m h1 h2
    exact ⟨h1, h2, slotsMono_refl m, by simp⟩
  | cons ts tss' ih =>
    intro m h1 h2
    obtain ⟨H1, H2, Hmono, Hpres⟩ := ih (addPriorTimeslot m loc day ts)
      (InvBooked_addPriorTimeslot appts m loc day ts h1)
      (InvNodupOC_addPriorTimeslot m loc day ts h2)
    rw [List.foldl_cons]
    refine ⟨H1, H2,
      slotsMono_trans (slotsMono_addPriorTimeslot m loc day ts) Hmono, ?_⟩
    intro u hu hno
    rcases List.mem_cons.mp hu with h0 | h0
    · subst h0
      exact falseSlotAt_mono Hmono
        (falseSlot_addPriorTimeslot appts m loc day u h1 hno)
    · exact Hpres u h0 hno

theorem addPriorDay_spec (appts : List Appt) (loc : String)
    (de : String × List Timeslot) (m : AvailMap)
    (h1 : InvBooked appts m) (h2 : InvNodupOC m) :
    InvBooked appts (addPriorDay loc m de) ∧ InvNodupOC (addPriorDay loc m de) ∧
    slotsMono m (addPriorDay loc m de) ∧
    (∀ ts ∈ de.2, noMatch appts loc de.1 ts →
      falseSlotAt (addPriorDay loc m de) loc de.1 ts) := by
  unfold addPriorDay
  have heq : ∀ l d, slotsAt (updSlots m loc de.1 id) l d = slotsAt m l d :=
    fun l d => slotsAt_updSlots_id m loc de.1 l d
  have h1' : InvBooked appts (updSlots m loc de.1 id) :=
    fun l d t ht hb => h1 l d t (heq l d ▸ ht) hb
  have h2' : InvNodupOC (updSlots m loc de.1 id) :=
    fun l d => (heq l d).symm ▸ h2 l d
  obtain ⟨H1, H2, Hmono, Hpres⟩ :=
    priorSlotFold_spec appts loc de.1 de.2 (updSlots m loc de.1 id) h1' h2'
  exact ⟨H1, H2,
    slotsMono_trans (fun l d t ht => (heq l d).symm ▸ ht) Hmono, Hpres⟩

theorem priorDayFold_spec (appts : List Appt) (loc : String)
    (des : List (String × List Timeslot)) :
    ∀ m, InvBooked appts m → InvNodupOC m →
    (InvBooked appts (des.foldl (addPriorDay loc) m) ∧
     InvNodupOC (des.foldl (addPriorDay loc) m) ∧
     slotsMono m (des.foldl (addPriorDay loc) m) ∧
     ∀ de ∈ des, ∀ ts ∈ de.2, noMatch appts loc de.1 ts →
       falseSlotAt (des.foldl (addPriorDay loc) m) loc de.1 ts) := by
  induction des with
  | nil =>
    intro m h1 h2
    exact ⟨h1, h2, slotsMono_refl m, by simp⟩
  | cons de des' ih =>
    intro m h1 h2
    obtain ⟨S1, S2, Smono, Spres⟩ := addPriorDay_spec appts loc de m h1 h2
    obtain ⟨H1, H2, Hmono, Hpres⟩ := ih (addPriorDay loc m de) S1 S2
    rw [List.foldl_cons]
    refine ⟨H1, H2, slotsMono_trans Smono Hmono, ?_⟩
    intro e he ts hts hno
    rcases List.mem_cons.mp he with h0 | h0
    · subst h0
      exact falseSlotAt_mono Hmono (Spres ts hts hno)
    · exact Hpres e h0 ts hts hno

theorem addPriorLoc_spec (appts : List Appt) (le : String × DaySlots)
    (m : AvailMap) (h1 : InvBooked appts m) (h2 : InvNodupOC m) :
    InvBooked appts (addPriorLoc m le) ∧ InvNodupOC (addPriorLoc m le) ∧
    slotsMono m (addPriorLoc m le) ∧
    (∀ de ∈ le.2, ∀ ts ∈ de.2, noMatch appts le.1 de.1 ts →
      falseSlotAt (addPriorLoc m le) le.1 de.1 ts) := by
  unfold addPriorLoc
  have heq : ∀ l d, slotsAt (updKey m le.1 (fun days => days.getD [])) l d =
      slotsAt m l d := fun l d => slotsAt_ensureLoc m le.1 l d
  have h1' : InvBooked appts (updKey m le.1 (fun days => days.getD [])) :=
    fun l d t ht hb => h1 l d t (heq l d ▸ ht) hb
  have h2' : InvNodupOC (updKey m le.1 (fun days => days.getD [])) :=
    fun l d => (heq l d).symm ▸ h2 l d
  obtain ⟨H1, H2, Hmono, Hpres⟩ := priorDayFold_spec appts le.1 le.2 _ h1' h2'
  exact ⟨H1, H2,
    slotsMono_trans (fun l d t ht => (heq l d).symm ▸ ht) Hmono, Hpres⟩

theorem priorLocFold_spec (appts : List Appt) (les : List (String × DaySlots)) :
    ∀ m, InvBooked appts m → InvNodupOC m →
    (InvBooked appts (les.foldl addPriorLoc m) ∧
     InvNodupOC (les.foldl addPriorLoc m) ∧
     slotsMono m (les.foldl addPriorLoc m) ∧
     ∀ le ∈ les, ∀ de ∈ le.2, ∀ ts ∈ de.2, noMatch appts le.1 de.1 ts →
       falseSlotAt (les.foldl addPriorLoc m) le.1 de.1 ts) := by
  induction les with
  | nil =>
    intro m h1 h2
    exact ⟨h1, h2, slotsMono_refl m, by simp⟩
  | cons le les' ih =>
    intro m h1 h2
    obtain ⟨S1, S2, Smono, Spres⟩ := addPriorLoc_spec appts le m h1 h2
    obtain ⟨H1, H2, Hmono, Hpres⟩ := ih (addPriorLoc m le) S1 S2
    rw [List.foldl_cons]
    refine ⟨H1, H2, slotsMono_trans Smono Hmono, ?_⟩
    intro e he de hde ts hts hno
    rcases List.mem_cons.mp he with h0 | h0
    · subst h0
      exact falseSlotAt_mono Hmono (Spres de hde ts hts hno)
    · exact Hpres e h0 de hde ts hts hno

/-- C1: for every user object with a non-empty uid,
`Data.updateUserAvailability` replaces `user.availability` with a map from
location to day to `{open, close, booked}` records in which every record's
`booked` field is boolean; a slot is booked exactly when some fetched
appointment of the user matches its location, day, and `from`/`to` window;
every window of the prior availability matched by no appointment appears
with `booked = false`; and no `(location, day, open, close)` triple occurs
twice in a day's list. -/
theorem updateUserAvailability_spec (user : User) (appts : List Appt)
    (huid : user.uid ≠ "") :
    ∃ m, updateUserAvailability user appts = some m ∧
      (∀ loc day t, t ∈ slotsAt m loc day →
        (t.booked = true ∨ t.booked = false) ∧
        (t.booked = true ↔ ∃ a ∈ appts, apptMatches a loc day t.«open» t.close)) ∧
      (∀ le ∈ user.availability.getD [], ∀ de ∈ le.2, ∀ ts ∈ de.2,
        noMatch appts le.1 de.1 ts → falseSlotAt m le.1 de.1 ts) ∧
      (∀ loc day, (slotsAt m loc day).Pairwise distinctOC) := by
  have hsym : Symmetric distinctOC := fun x y h hc => h ⟨hc.1.symm, hc.2.symm⟩
  have base1 : InvBooked appts ([] : AvailMap) := by
    intro loc day t ht
    rw [slotsAt_nil] at ht
    simp at ht
  have base2 : InvNodupOC ([] : AvailMap) := by
    intro loc day
    rw [slotsAt_nil]
    exact List.Pairwise.nil
  have base3 : InvAllBooked ([] : AvailMap) := by
    intro loc day t ht
    rw [slotsAt_nil] at ht
    simp at ht
  obtain ⟨P1, P2, P3, Pmono, Ppres⟩ :=
    apptFold_spec appts appts ([] : AvailMap) (fun x hx => hx) base1 base2 base3
  obtain ⟨Q1, Q2, Qmono, Qpres⟩ :=
    priorLocFold_spec appts (user.availability.getD [])
      (appts.foldl addAppt ([] : AvailMap)) P1 P2
  refine ⟨buildBookedAvailability appts (user.availability.getD []),
    by simp [updateUserAvailability, huid], ?_, Qpres, Q2⟩
  intro loc day t ht
  refine ⟨by cases t.booked <;> simp, ?_, ?_⟩
  · intro hb
    exact Q1 loc day t ht hb
  · rintro ⟨a, ha, h1, h2, h3, h4⟩
    obtain ⟨u, hu, huo, huc, hub⟩ := Ppres a ha
    have hu' : u ∈ slotsAt (buildBookedAvailability appts
        (user.availability.getD [])) loc day := by
      rw [← h1, ← h2]
      exact Qmono _ _ u hu
    by_contra hb
    have hne : t ≠ u := fun he => by rw [he, hub] at hb; exact hb rfl
    exact (List.Pairwise.forall hsym (Q2 loc day)) ht hu' hne
      ⟨(huo.trans h3).symm, (huc.trans h4).symm⟩

theorem updateUserAvailability_spec_witness :
    ∃ m, updateUserAvailability
        { uid := "u1",
          availability := some
            [("L", [("Mon", [⟨"1:00 PM", "2:00 PM", false⟩,
                             ⟨"3:00 PM", "4:00 PM", false⟩])])] }
        [⟨⟨"L"⟩, ⟨"Mon", "1:00 PM", "2:00 PM"⟩⟩,
         ⟨⟨"N"⟩, ⟨"Wed", "9:00 AM", "10:00 AM"⟩⟩] = some m ∧
      (∀ loc day t, t ∈ slotsAt m loc day →
        (t.booked = true ∨ t.booked = false) ∧
        (t.booked = true ↔ ∃ a ∈
          [⟨⟨"L"⟩, ⟨"Mon", "1:00 PM", "2:00 PM"⟩⟩,
           (⟨⟨"N"⟩, ⟨"Wed", "9:00 AM", "10:00 AM"⟩⟩ : Appt)],
          apptMatches a loc day t.«open» t.close)) ∧
      (∀ le ∈ (some
            [("L", [("Mon", [⟨"1:00 PM", "2:00 PM", false⟩,
                             ⟨"3:00 PM", "4:00 PM", false⟩])])] :
          Option AvailMap).getD [], ∀ de ∈ le.2, ∀ ts ∈ de.2,
        noMatch
          [⟨⟨"L"⟩, ⟨"Mon", "1:00 PM", "2:00 PM"⟩⟩,
           ⟨⟨"N"⟩, ⟨"Wed", "9:00 AM", "10:00 AM"⟩⟩] le.1 de.1 ts →
        falseSlotAt m le.1 de.1 ts) ∧
      (∀ loc day, (slotsAt m loc day).Pairwise distinctOC) :=
  updateUserAvailability_spec
    { uid := "u1",
      availability := some
        [("L", [("Mon", [⟨"1:00 PM", "2:00 PM", false⟩,
                         ⟨"3:00 PM", "4:00 PM", false⟩])])] }
    [⟨⟨"L"⟩, ⟨"Mon", "1:00 PM", "2:00 PM"⟩⟩,
     ⟨⟨"N"⟩, ⟨"Wed", "9:00 AM", "10:00 AM"⟩⟩] (by decide)

end Tutorbook
